import Mathlib

/-!
# Formal model of the sdcfw core (nRF52 backup / erase / restore tool and firmware kitchen)

This file shallowly embeds the parts of the `sdcfw` repository that the
specification claims talk about:

* `packages/core/nrf52.ts` — the nRF52 NVM controller layer
  (`writeUICRBinary`, `writeFlash`, `verifyFlash`, `readFlash`,
  `readUICRBinary`, `readBootloaderSettings`, `performChipErase`),
* `packages/core/operations/restore.ts` and the `backup` operation,
* `apps/kitchen` — the firmware patch kitchen (`verifyOriginal`,
  `applyPatch`, `cleanFirmware`, the `patch` pipeline and its CRC-32
  recomputation).

Device I/O is modelled by oracles: reads are pure functions provided by a
`Dap` record (a read at an address yields the word the target answers), and
writes/resets are collected into an explicit trace of `Effect` values, so
that theorems can speak about which writes an operation performs and in what
order.  Sleeps, log output and progress callbacks have no observable effect
on results or on the device and are not modelled.

JavaScript `Buffer`/`Uint8Array`/`Uint32Array` semantics are modelled
explicitly where they matter: `Uint8Array` stores bytes mod 256 (reads mask
with `% 256`), `Uint32Array` elements are words mod 2^32, out-of-range
`Uint8Array` index stores are dropped, `Buffer.readUIntXX`/`writeUIntXX`
throw on out-of-range offsets or values (modelled with `Option`), and
`Buffer.subarray` clamps its bounds to the buffer length.

CRC-32 is the IEEE 802.3 checksum computed by the `crc-32` npm package used
by the kitchen (reflected polynomial `0xEDB88320`, init and final XOR
`0xFFFFFFFF`); it is modelled bit-by-bit over `Nat`.
-/

namespace Sdcfw

/-- Error codes of the core (`CoreErrorCode` in `packages/core/types.ts`). -/
inductive CoreErrorCode where
  | TARGET_NOT_CONNECTED
  | TRANSFER_FAILED
  | TIMEOUT
  | DEVICE_NOT_FOUND
  | CONNECTION_FAILED
  | INVALID_DATA
  | ERASE_FAILED
  | WRITE_FAILED
  | VERIFY_FAILED
  | UNKNOWN
deriving DecidableEq, Repr

/-- `isRecoverableCode` from `packages/core/types.ts`. -/
def isRecoverableCode (c : CoreErrorCode) : Bool :=
  c = .TARGET_NOT_CONNECTED || c = .TRANSFER_FAILED || c = .TIMEOUT

/-! ## Chip erase (`performChipErase`, `packages/core/nrf52.ts`)

Only the `ERASEALLSTATUS` polling loop and the surrounding `try`/`catch`
decide which error code a failed erase carries, so the model takes the
result of each status read as an oracle `statusRead : Nat → Except
CoreErrorCode Nat` (indexed by the poll attempt; an `Except.error` models
`dap.readAP`/`withTimeout` throwing on that attempt).  The preceding
CTRL-AP selection and `ERASEALL` trigger writes, and the best-effort reset
pulse and cleanup afterwards, do not influence the returned error code: any
exception they raise is caught by the same outer `catch` that rethrows
`ERASE_FAILED` (for the prelude) or is swallowed (for the cleanup). -/

/-- The `ERASEALLSTATUS` polling loop of `performChipErase`: up to
`fuel` attempts (the source uses `maxAttempts = 150`, one per 100 ms);
returns `true` as soon as a read yields `0`, `false` if the budget is
exhausted, and propagates a read failure. -/
def eraseStatusPoll (statusRead : Nat → Except CoreErrorCode Nat) :
    Nat → Nat → Except CoreErrorCode Bool
  | _, 0 => .ok false
  | i, fuel + 1 =>
    match statusRead i with
    | .error e => .error e
    | .ok s => if s = 0 then .ok true else eraseStatusPoll statusRead (i + 1) fuel

/-- `performChipErase` outcome model: polls `ERASEALLSTATUS` 150 times; a
budget exhaustion hits the explicit
`throw createError("ERASE_FAILED", "Erase timeout - ...")` at nrf52.ts:648,
and any exception inside the `try` block (including a thrown `TIMEOUT` from
`withTimeout`) is re-wrapped by the outer `catch` at nrf52.ts:692 into
`createError("ERASE_FAILED", ...)`. -/
def performChipEraseM (statusRead : Nat → Except CoreErrorCode Nat) :
    Except CoreErrorCode Unit :=
  match eraseStatusPoll statusRead 0 150 with
  | .error _ => .error .ERASE_FAILED
  | .ok true => .ok ()
  | .ok false => .error .ERASE_FAILED

/-! ## Memory map constants (`packages/core/nrf52.ts`) -/

def FICR_BASE : Nat := 0x10000000
def UICR_BASE : Nat := 0x10001000
def UICR_SIZE : Nat := 0x400
def NVMC_CONFIG : Nat := 0x4001e504
def NVMC_READY : Nat := 0x4001e400
def NVMC_ERASEPAGE : Nat := 0x4001e508
def FLASH_BASE : Nat := 0x00000000
def BOOTLOADER_SETTINGS_ADDR : Nat := 0x0007f000

/-! ## Byte-list buffer helpers

`Uint8Array` buffers on the host side are modelled as `List Nat` whose
elements are byte values.  The `readUInt32LE`/`writeUInt32LE` helpers of
`nrf52.ts` index the buffer directly (`buffer[offset]`); an out-of-range
`Uint8Array` index read yields `undefined`/`0` after the `|` coercions and
out-of-range stores are dropped, which `List.getD`/`List.set` reproduce. -/

/-- `readUInt32LE(buffer, offset)` of `nrf52.ts`: little-endian word. -/
def readUInt32LE (l : List Nat) (off : Nat) : Nat :=
  l.getD off 0 + 256 * l.getD (off + 1) 0 + 65536 * l.getD (off + 2) 0 +
    16777216 * l.getD (off + 3) 0

/-- `writeUInt32LE(buffer, value, offset)` of `nrf52.ts`: stores the four
little-endian bytes of `value` (each `(value >> 8k) & 0xff`). -/
def writeUInt32LEList (l : List Nat) (value off : Nat) : List Nat :=
  ((((l.set off (value % 256)).set (off + 1) (value / 256 % 256)).set
      (off + 2) (value / 65536 % 256)).set (off + 3) (value / 16777216 % 256))

/-! ## Device model

A `Dap` is the read side of the debug interface: `readWord a` is the word
the target answers for a 32-bit read at address `a` (`dap.readMem32`, and
per-word results of `dap.readBlock` with its auto-incrementing TAR).
`Uint32Array` results are < 2^32, so reads are masked with `% 2^32`.
Writes are not applied to the oracle — the target's memory behaviour under
writes (flash physics, APPROTECT, …) is outside the program; instead every
write the code issues is recorded as an `Effect`. -/

structure Dap where
  readWord : Nat → Nat

/-- A masked 32-bit read (`Uint32Array` element semantics). -/
def Dap.read32 (d : Dap) (a : Nat) : Nat := d.readWord a % 4294967296

/-- `dap.readBlock(addr, wordCount)`: `wordCount` words starting at `addr`. -/
def Dap.readBlock (d : Dap) (addr n : Nat) : List Nat :=
  (List.range n).map fun i => d.read32 (addr + 4 * i)

/-- One observable write-side action of the core against the target. -/
inductive Effect where
  | memWrite (addr value : Nat)
  | blockWrite (addr : Nat) (words : List Nat)
  | reset
deriving DecidableEq, Repr

/-! ## `writeUICRBinary` (`nrf52.ts:329`) -/

/-- The 256 words `writeUICRBinary` assembles from a 1024-byte buffer
(`words[i] = readUInt32LE(data, i * 4)`). -/
def uicrWords (data : List Nat) : List Nat :=
  (List.range (UICR_SIZE / 4)).map fun i => readUInt32LE data (4 * i)

/-- `writeUICRBinary(dap, data)`: rejects any length other than 1024 bytes
with `INVALID_DATA` before touching the target; otherwise enables NVMC
writes, writes the UICR as one 256-word block, and disables NVMC writes. -/
def writeUICRBinaryM (data : List Nat) :
    Except CoreErrorCode Unit × List Effect :=
  if data.length ≠ UICR_SIZE then (.error .INVALID_DATA, [])
  else
    (.ok (), [.memWrite NVMC_CONFIG 1,
              .blockWrite UICR_BASE (uicrWords data),
              .memWrite NVMC_CONFIG 0])

/-! ## `writeFlash` (`nrf52.ts:412`) -/

/-- The word `writeFlash` assembles for byte offset `bo` of `data`: the four
bytes `data[bo..bo+3]` little-endian when they all exist, and otherwise the
trailing bytes padded with `0xFF` (`padded.fill(0xff)` then
`padded.set(data.slice(bo))`).  Both source branches produce exactly this
value, so they are merged into one formula. -/
def mkWord (data : List Nat) (bo : Nat) : Nat :=
  (if bo < data.length then data.getD bo 0 else 0xFF) +
    256 * (if bo + 1 < data.length then data.getD (bo + 1) 0 else 0xFF) +
    65536 * (if bo + 2 < data.length then data.getD (bo + 2) 0 else 0xFF) +
    16777216 * (if bo + 3 < data.length then data.getD (bo + 3) 0 else 0xFF)

/-- The words of the 4-KiB chunk of `data` starting at byte offset `off`
(`wordsToWrite = ceil(min(4096, remaining) / 4)` words). -/
def chunkWords (data : List Nat) (off : Nat) : List Nat :=
  (List.range ((min 4096 (data.length - off) + 3) / 4)).map fun i =>
    mkWord data (off + 4 * i)

/-- The chunk loop of `writeFlash`: one `writeBlock` per 4-KiB chunk,
starting at `off`; `fuel` bounds the number of chunks (any value
`≥ ceil(data.length / 4096)` gives the loop of the source). -/
def writeFlashChunks (data : List Nat) : Nat → Nat → List Effect
  | _, 0 => []
  | off, fuel + 1 =>
    if off < data.length then
      .blockWrite (FLASH_BASE + off) (chunkWords data off) ::
        writeFlashChunks data (off + min 4096 (data.length - off)) fuel
    else []

/-- `writeFlash(dap, data)`: NVMC write-enable, the 4-KiB chunk writes, then
NVMC write-disable. -/
def writeFlashM (data : List Nat) : List Effect :=
  .memWrite NVMC_CONFIG 1 ::
    (writeFlashChunks data 0 (data.length + 1) ++ [.memWrite NVMC_CONFIG 0])

/-- The words carried by one effect (`writeBlock` payload). -/
def effectWords : Effect → List Nat
  | .blockWrite _ ws => ws
  | _ => []

/-- All words `writeFlash` writes, in order (the concatenation of its
`writeBlock` payloads). -/
def flashWords (data : List Nat) : List Nat :=
  ((writeFlashChunks data 0 (data.length + 1)).map effectWords).flatten

/-! ## `verifyFlash` (`nrf52.ts:482`)

Counts word mismatches between the flash read back from the target and
`expectedData`; the expected value of a trailing partial word uses the same
`0xFF` padding as `writeFlash`, which is again `mkWord`. -/

/-- Mismatching words in the chunk at byte offset `off`. -/
def chunkMismatches (d : Dap) (expected : List Nat) (off : Nat) : Nat :=
  ((List.range ((min 4096 (expected.length - off) + 3) / 4)).filter fun i =>
    d.read32 (FLASH_BASE + off + 4 * i) ≠ mkWord expected (off + 4 * i)).length

/-- The chunk loop of `verifyFlash`, accumulating the mismatch count. -/
def verifyFlashChunks (d : Dap) (expected : List Nat) : Nat → Nat → Nat
  | _, 0 => 0
  | off, fuel + 1 =>
    if off < expected.length then
      chunkMismatches d expected off +
        verifyFlashChunks d expected (off + min 4096 (expected.length - off)) fuel
    else 0

/-- `verifyFlash(dap, expectedData).errors`. -/
def verifyFlashErrors (d : Dap) (expected : List Nat) : Nat :=
  verifyFlashChunks d expected 0 (expected.length + 1)

/-! ## `restore` (`packages/core/operations/restore.ts`)

`restore(connection, flashData, uicrData, options)`:
flash write → optional verify (any nonzero error count returns
`err(VERIFY_FAILED)` immediately) → UICR write → `dap.reset()` → `ok`.
The result is paired with the trace of write-side effects actually
performed up to the point the function returns. -/

def restoreM (d : Dap) (flashData uicrData : List Nat) (verify : Bool) :
    Except CoreErrorCode Unit × List Effect :=
  let wf := writeFlashM flashData
  if verify ∧ verifyFlashErrors d flashData ≠ 0 then
    (.error .VERIFY_FAILED, wf)
  else
    match writeUICRBinaryM uicrData with
    | (.error e, tr) => (.error e, wf ++ tr)
    | (.ok _, tr) => (.ok (), wf ++ tr ++ [.reset])

/-! ## `readDeviceInfo`, `readFlash`, `readUICRBinary`, `backup` -/

/-- FICR snapshot (`readDeviceInfo`, `nrf52.ts:61`): ten fixed-offset FICR
word reads. -/
structure DeviceInfo where
  part : Nat
  variant : Nat
  package : Nat
  ram : Nat
  flash : Nat
  deviceId0 : Nat
  deviceId1 : Nat
  deviceAddr0 : Nat
  deviceAddr1 : Nat
  deviceAddrType : Nat
  codepagesize : Nat
  codesize : Nat
deriving DecidableEq, Repr

def readDeviceInfoM (d : Dap) : DeviceInfo where
  part := d.read32 (FICR_BASE + 0x100)
  variant := d.read32 (FICR_BASE + 0x104)
  package := d.read32 (FICR_BASE + 0x108)
  ram := d.read32 (FICR_BASE + 0x10c)
  flash := d.read32 (FICR_BASE + 0x110)
  deviceId0 := d.read32 (FICR_BASE + 0x060)
  deviceId1 := d.read32 (FICR_BASE + 0x064)
  deviceAddr0 := d.read32 (FICR_BASE + 0x0a4)
  deviceAddr1 := d.read32 (FICR_BASE + 0x0a8)
  deviceAddrType := d.read32 (FICR_BASE + 0x0a0)
  codepagesize := d.read32 (FICR_BASE + 0x010)
  codesize := d.read32 (FICR_BASE + 0x014)

/-- The word-to-buffer copy loop shared by `readFlash`, `readUICRBinary` and
`readBootloaderSettings`: `writeUInt32LE(buffer, words[i], base + i*4)` for
each word.  (In `readFlash` the store of each byte is skipped when its
index reaches the buffer size; `Uint8Array` stores out of range are dropped
anyway, and `List.set` reproduces exactly that.) -/
def storeWords (buffer : List Nat) (base : Nat) : List Nat → List Nat
  | [] => buffer
  | w :: ws => storeWords (writeUInt32LEList buffer w base) (base + 4) ws

/-- The chunk loop of `readFlash` (`nrf52.ts:369`): 4-KiB block reads
converted to bytes in a `size`-byte buffer. -/
def readFlashChunks (d : Dap) (size : Nat) : List Nat → Nat → Nat → List Nat
  | buffer, _, 0 => buffer
  | buffer, off, fuel + 1 =>
    if off < size then
      readFlashChunks d size
        (storeWords buffer off
          (d.readBlock (FLASH_BASE + off) ((min 4096 (size - off) + 3) / 4)))
        (off + min 4096 (size - off)) fuel
    else buffer

/-- `readFlash(dap, size)`: the `size`-byte flash image read back. -/
def readFlashM (d : Dap) (size : Nat) : List Nat :=
  readFlashChunks d size (List.replicate size 0) 0 (size + 1)

/-- `readUICRBinary(dap)` (`nrf52.ts:179`): one 256-word block read into a
1024-byte buffer. -/
def readUICRBinaryM (d : Dap) : List Nat :=
  storeWords (List.replicate UICR_SIZE 0) 0 (d.readBlock UICR_BASE (UICR_SIZE / 4))

/-- `backup(connection)` (`packages/core/operations/backup.ts`): device
info → `flashSize = deviceInfo.flash * 1024` → flash read → UICR read. -/
def backupM (d : Dap) : List Nat × List Nat :=
  (readFlashM d ((readDeviceInfoM d).flash * 1024), readUICRBinaryM d)

/-! ## `readBootloaderSettings` (`nrf52.ts:197`)

The whole body sits in `try { ... } catch { return null; }`, so a failing
block read and absent settings (first word `0xFFFFFFFF`) both surface as
`null`.  The model takes the outcome of
`withTimeout(dap.readBlock(BOOTLOADER_SETTINGS_ADDR, 23), 2000)` as input:
an `Except.error` is a rejected read (transport fault or timeout). -/

structure BootloaderBank where
  imageSize : Nat
  imageCrc : Nat
  bankCode : Nat
deriving DecidableEq, Repr

structure DfuProgress where
  commandSize : Nat
  commandOffset : Nat
  commandCrc : Nat
  dataObjectSize : Nat
  firmwareImageCrc : Nat
  firmwareImageCrcLast : Nat
  firmwareImageOffset : Nat
  firmwareImageOffsetLast : Nat
deriving DecidableEq, Repr

structure BootloaderSettings where
  crc : Nat
  settingsVersion : Nat
  appVersion : Nat
  bootloaderVersion : Nat
  bankLayout : Nat
  bankCurrent : Nat
  bank0 : BootloaderBank
  bank1 : BootloaderBank
  writeOffset : Nat
  sdSize : Nat
  progress : DfuProgress
  enterButtonlessDfu : Nat
deriving DecidableEq, Repr

/-- The 92-byte staging buffer built from the 23 words
(`writeUInt32LE(buffer, words[i], i * 4)`). -/
def settingsBuffer (words : List Nat) : List Nat :=
  storeWords (List.replicate 92 0) 0 ((words.take 23).map (· % 4294967296))

def readBootloaderSettingsM (blockRead : Except CoreErrorCode (List Nat)) :
    Option BootloaderSettings :=
  match blockRead with
  | .error _ => none
  | .ok words =>
    let buffer := settingsBuffer words
    let crc := readUInt32LE buffer 0
    if crc = 0xffffffff then none
    else
      some
        { crc := crc
          settingsVersion := readUInt32LE buffer 4
          appVersion := readUInt32LE buffer 8
          bootloaderVersion := readUInt32LE buffer 12
          bankLayout := readUInt32LE buffer 16
          bankCurrent := readUInt32LE buffer 20
          bank0 :=
            { imageSize := readUInt32LE buffer 24
              imageCrc := readUInt32LE buffer 28
              bankCode := readUInt32LE buffer 32 }
          bank1 :=
            { imageSize := readUInt32LE buffer 36
              imageCrc := readUInt32LE buffer 40
              bankCode := readUInt32LE buffer 44 }
          writeOffset := readUInt32LE buffer 48
          sdSize := readUInt32LE buffer 52
          progress :=
            { commandSize := readUInt32LE buffer 56
              commandOffset := readUInt32LE buffer 60
              commandCrc := readUInt32LE buffer 64
              dataObjectSize := readUInt32LE buffer 68
              firmwareImageCrc := readUInt32LE buffer 72
              firmwareImageCrcLast := readUInt32LE buffer 76
              firmwareImageOffset := readUInt32LE buffer 80
              firmwareImageOffsetLast := readUInt32LE buffer 84 }
          enterButtonlessDfu := readUInt32LE buffer 88 }

/-! ## Firmware kitchen (`apps/kitchen`, the variant with patch verification)

Host-side flash images are large (512 KiB) and mostly uniform, so they are
modelled as a length plus a byte function (`Img`), which keeps concrete
instances evaluable.  `Buffer` semantics: reads mask with `% 256`
(`Uint8Array` storage), `readUIntXX`/`writeUIntXX` throw on out-of-range
offsets or values (`Option`), `subarray` clamps, and `Buffer.copy` copies
the bytes that fit in the target. -/

structure Img where
  size : Nat
  byteAt : Nat → Nat

/-- The byte at index `i` (masked, as stored by a `Uint8Array`). -/
def Img.get8 (img : Img) (i : Nat) : Nat := img.byteAt i % 256

/-- `buf.subarray(s, e)` contents (both bounds clamped to the length). -/
def Img.sub (img : Img) (s e : Nat) : List Nat :=
  (List.range (min e img.size - min s img.size)).map fun k =>
    img.get8 (min s img.size + k)

/-- `flash.readUInt8(off)` (throws when out of range). -/
def Img.readU8 (img : Img) (off : Nat) : Option Nat :=
  if off + 1 ≤ img.size then some (img.get8 off) else none

/-- `flash.readUInt16BE(off)`. -/
def Img.readU16BE (img : Img) (off : Nat) : Option Nat :=
  if off + 2 ≤ img.size then some (256 * img.get8 off + img.get8 (off + 1))
  else none

/-- `flash.readUInt32BE(off)`. -/
def Img.readU32BE (img : Img) (off : Nat) : Option Nat :=
  if off + 4 ≤ img.size then
    some (16777216 * img.get8 off + 65536 * img.get8 (off + 1) +
      256 * img.get8 (off + 2) + img.get8 (off + 3))
  else none

/-- `flash.readUInt32LE(off)`. -/
def Img.readU32LE (img : Img) (off : Nat) : Option Nat :=
  if off + 4 ≤ img.size then
    some (img.get8 off + 256 * img.get8 (off + 1) +
      65536 * img.get8 (off + 2) + 16777216 * img.get8 (off + 3))
  else none

/-- Raw single-byte store (no bounds check; used by the checked writers). -/
def Img.setByte (img : Img) (i v : Nat) : Img :=
  ⟨img.size, fun j => if j = i then v else img.byteAt j⟩

/-- `flash.writeUInt8(v, off)`: value must be a byte, offset in range. -/
def Img.writeU8 (img : Img) (v off : Nat) : Option Img :=
  if v ≤ 0xff ∧ off + 1 ≤ img.size then some (img.setByte off v) else none

/-- `flash.writeUInt16BE(v, off)`. -/
def Img.writeU16BE (img : Img) (v off : Nat) : Option Img :=
  if v ≤ 0xffff ∧ off + 2 ≤ img.size then
    some ((img.setByte off (v / 256)).setByte (off + 1) (v % 256))
  else none

/-- `flash.writeUInt32BE(v, off)`. -/
def Img.writeU32BE (img : Img) (v off : Nat) : Option Img :=
  if v ≤ 0xffffffff ∧ off + 4 ≤ img.size then
    some ((((img.setByte off (v / 16777216)).setByte (off + 1)
      (v / 65536 % 256)).setByte (off + 2) (v / 256 % 256)).setByte
        (off + 3) (v % 256))
  else none

/-- `flash.writeUInt32LE(v, off)`. -/
def Img.writeU32LE (img : Img) (v off : Nat) : Option Img :=
  if v ≤ 0xffffffff ∧ off + 4 ≤ img.size then
    some ((((img.setByte off (v % 256)).setByte (off + 1)
      (v / 256 % 256)).setByte (off + 2) (v / 65536 % 256)).setByte
        (off + 3) (v / 16777216 % 256))
  else none

/-- `Buffer.from(list).copy(flash, off)`: stores `l` (bytes masked by the
`Buffer.from` construction) at `off`, dropping whatever does not fit. -/
def Img.copyIn (img : Img) (off : Nat) (l : List Nat) : Img :=
  ⟨img.size, fun j =>
    if off ≤ j ∧ j < off + l.length then l.getD (j - off) 0 % 256
    else img.byteAt j⟩

/-! ### CRC-32 (the `crc-32` npm package; IEEE 802.3)

Reflected polynomial `0xEDB88320`, init `0xFFFFFFFF`, final XOR
`0xFFFFFFFF`; `crc32.buf(data) >>> 0` in the kitchen yields the standard
unsigned checksum, computed here bit by bit over `Nat`. -/

def CRC_POLY : Nat := 0xEDB88320

/-- One bit step: shift right, XOR the polynomial if the LSB was set. -/
def crcBit (c : Nat) : Nat :=
  if c % 2 = 1 then (c / 2) ^^^ CRC_POLY else c / 2

/-- Eight bit steps. -/
def crc8 : Nat → Nat → Nat
  | 0, c => c
  | n + 1, c => crc8 n (crcBit c)

/-- One byte step: XOR the byte into the state, then eight bit steps. -/
def crcByte (c b : Nat) : Nat := crc8 8 (c ^^^ b)

/-- Running CRC state over a byte list. -/
def crcFold (c : Nat) : List Nat → Nat
  | [] => c
  | b :: bs => crcFold (crcByte c b) bs

/-- `crc32.buf(data) >>> 0`. -/
def crc32 (data : List Nat) : Nat := crcFold 0xFFFFFFFF data ^^^ 0xFFFFFFFF

/-! ### Patches (`apps/kitchen/patches/types.ts`)

`string` originals/data are their ASCII byte sequences; `description` is
log-only and dropped. -/

inductive Patch where
  | pstring (address : Nat) (original data : List Nat)
  | puint8 (address original data : Nat)
  | puint16 (address original data : Nat)
  | puint32 (address original data : Nat)
  | pbytes (address : Nat) (original data : List Nat)
  | pfindReplace (find replace : List Nat)
deriving DecidableEq, Repr

/-- A region preserved by cleaning; `end = "appEnd"` is `none`. -/
structure CleanRegion where
  start : Nat
  stop : Option Nat
deriving DecidableEq, Repr

/-- A patch file (file-name fields are I/O-only and dropped). -/
structure PatchFile where
  cleanRegions : List CleanRegion
  patches : List Patch
deriving DecidableEq, Repr

/-- The offsets at which the needle occurs in the image
(`findAllOccurrences`: repeated `Buffer.indexOf` from just past each hit,
which enumerates every — possibly overlapping — match position in order;
needle bytes are already masked by `Buffer.from`). -/
def matchesAt (img : Img) (needle : List Nat) (i : Nat) : Bool :=
  decide (i + needle.length ≤ img.size) &&
    ((List.range needle.length).all fun j => img.get8 (i + j) = needle.getD j 0 % 256)

def findAllOccurrences (img : Img) (needle : List Nat) : List Nat :=
  (List.range (img.size + 1 - needle.length)).filter (matchesAt img needle)

/-- `verifyOriginal(flash, patch)` (`types.ts:372`): `none` when the patch
cannot proceed (a verification mismatch, or a `Buffer` read throwing out of
range — either aborts the kitchen run with no output); `some fa` when it
passes, with `fa` the recorded offset for a find-replace patch. -/
def verifyOriginal (img : Img) : Patch → Option (Option Nat)
  | .pfindReplace find replace =>
    match findAllOccurrences img find with
    | [] => none
    | [a] => if find.length = replace.length then some (some a) else none
    | _ :: _ :: _ => none
  | .pstring address original _ =>
    if img.sub address (address + original.length) = original.map (· % 256) then
      some none
    else none
  | .puint8 address original _ =>
    match img.readU8 address with
    | none => none
    | some actual => if actual = original then some none else none
  | .puint16 address original _ =>
    match img.readU16BE address with
    | none => none
    | some actual => if actual = original then some none else none
  | .puint32 address original _ =>
    match img.readU32BE address with
    | none => none
    | some actual => if actual = original then some none else none
  | .pbytes address original _ =>
    if img.sub address (address + original.length) = original.map (· % 256) then
      some none
    else none

/-- `applyPatch(flash, patch, foundAddress)` (`types.ts:459`); `none` models
a throw (missing `foundAddress`, or a `Buffer` write out of range). -/
def applyPatch (img : Img) (p : Patch) (foundAddress : Option Nat) : Option Img :=
  match p with
  | .pfindReplace _ replace =>
    match foundAddress with
    | none => none
    | some a => some (img.copyIn a replace)
  | .pstring address _ data => some (img.copyIn address data)
  | .puint8 address _ data => img.writeU8 data address
  | .puint16 address _ data => img.writeU16BE data address
  | .puint32 address _ data => img.writeU32BE data address
  | .pbytes address _ data => some (img.copyIn address data)

/-- `cleanFirmware(flash, regions, appEnd)` (`types.ts:346`): a fresh
`0xFF`-filled buffer of the same length, with each region's bytes copied
from the input in order (later regions win; `flash.copy` clamps the source
range to the buffer length). -/
def resolveEnd (appEnd : Nat) : Option Nat → Nat
  | none => appEnd
  | some e => e

def cleanFirmware (img : Img) (regions : List CleanRegion) (appEnd : Nat) : Img :=
  ⟨img.size, fun j =>
    if regions.any fun r =>
        decide (r.start ≤ j) && decide (j < min (resolveEnd appEnd r.stop) img.size)
    then img.byteAt j
    else 0xFF⟩

/-! Later regions win in the source loop, but every region copies from the
*same* input image, so whenever any region covers an index the cleaned byte
is the input byte — the order is irrelevant and `List.any` is faithful. -/

def APP_START : Nat := 0x23000
def BL_SETTINGS_ADDR : Nat := 0x7f000

/-- The fields of the kitchen's `readBootloaderSettings(flash)`
(`types.ts:307`) that the pipeline uses are `bank0.imageSize` (and
`bank0.imageCrc` only for a warning); all nine reads are performed, so the
bounds of the furthest read (`offset + 32`) gate success. -/
structure KitchenSettings where
  crc : Nat
  settingsVersion : Nat
  appVersion : Nat
  bootloaderVersion : Nat
  bankLayout : Nat
  bankCurrent : Nat
  bank0ImageSize : Nat
  bank0ImageCrc : Nat
  bank0BankCode : Nat
deriving DecidableEq, Repr

def readKitchenSettings (img : Img) : Option KitchenSettings :=
  match img.readU32LE BL_SETTINGS_ADDR, img.readU32LE (BL_SETTINGS_ADDR + 4),
      img.readU32LE (BL_SETTINGS_ADDR + 8), img.readU32LE (BL_SETTINGS_ADDR + 12),
      img.readU32LE (BL_SETTINGS_ADDR + 16), img.readU32LE (BL_SETTINGS_ADDR + 20),
      img.readU32LE (BL_SETTINGS_ADDR + 24), img.readU32LE (BL_SETTINGS_ADDR + 28),
      img.readU32LE (BL_SETTINGS_ADDR + 32) with
  | some crc, some sv, some av, some bv, some bl, some bc, some sz, some icrc,
      some bcode =>
    some ⟨crc, sv, av, bv, bl, bc, sz, icrc, bcode⟩
  | _, _, _, _, _, _, _, _, _ => none

/-! ### The `patch` pipeline (`types.ts:616`, pure part)

Settings decode → optional clean → verify every patch → apply every patch
→ recompute the app CRC and store it at `BL_SETTINGS_ADDR + 28` → recompute
the settings CRC over `[BL_SETTINGS_ADDR+4, BL_SETTINGS_ADDR+92)` and store
it at `BL_SETTINGS_ADDR`.  `none` covers every no-output exit: a failed
settings read, a failed verification (`process.exit(1)`), or a `Buffer`
throw while patching or storing the CRCs.  The source runs all
verifications before aborting (to log each failure); the outcome is the
same as the fail-fast fold used here.  Step 5 of the source (the original
app CRC) only prints a warning and is omitted. -/

/-- The verification loop: per-patch recorded offsets, or `none` if any
patch fails to verify. -/
def verifyAll (img : Img) : List Patch → Option (List (Option Nat))
  | [] => some []
  | p :: ps =>
    match verifyOriginal img p with
    | none => none
    | some fa =>
      match verifyAll img ps with
      | none => none
      | some fas => some (fa :: fas)

/-- The application loop, in listed order, each patch with its recorded
offset from verification. -/
def applyAll (img : Img) : List (Patch × Option Nat) → Option Img
  | [] => some img
  | (p, fa) :: ps =>
    match applyPatch img p fa with
    | none => none
    | some img2 => applyAll img2 ps

/-- The working image verification and patching run on: settings are read
from the input, then the image is cleaned when `cleanRegions` is
non-empty. -/
def kitchenWorking (img : Img) (pf : PatchFile) : Option Img :=
  match readKitchenSettings img with
  | none => none
  | some bl =>
    some (if pf.cleanRegions ≠ [] then
      cleanFirmware img pf.cleanRegions (APP_START + bl.bank0ImageSize)
    else img)

/-- The CRC-repair tail of the pipeline on the patched image `img`
(`appSize = bank0.imageSize` from the input image's settings): the new app
CRC is computed first and stored at `BL_SETTINGS_ADDR + 28`, then the
settings CRC is computed over the image that already carries the new app
CRC and stored at `BL_SETTINGS_ADDR`. -/
def kitchenFinish (img : Img) (appSize : Nat) : Option Img :=
  match img.writeU32LE (crc32 (img.sub APP_START (APP_START + appSize)))
      (BL_SETTINGS_ADDR + 28) with
  | none => none
  | some img2 =>
    img2.writeU32LE
      (crc32 (img2.sub (BL_SETTINGS_ADDR + 4) (BL_SETTINGS_ADDR + 92)))
      BL_SETTINGS_ADDR

/-- The full kitchen `patch` pipeline (pure part): `some` is the emitted
image, `none` any abort. -/
def kitchenPatch (img : Img) (pf : PatchFile) : Option Img :=
  match readKitchenSettings img with
  | none => none
  | some bl =>
    match kitchenWorking img pf with
    | none => none
    | some w =>
      match verifyAll w pf.patches with
      | none => none
      | some fas =>
        match applyAll w (pf.patches.zip fas) with
        | none => none
        | some patched => kitchenFinish patched bl.bank0ImageSize

/-! ## GF(2)-linear view of the CRC state update

The CRC-32 state update for one zero byte, `crcZ c = crcByte c 0`, is
GF(2)-linear (XOR-additive) in the 32-bit state.  To evaluate the CRC of a
long all-zero run without iterating it byte by byte, the update is
represented by the list of its values on the basis `2^i` (`repOf`), linear
maps are composed (`composeL`) and squared (`sqIter`), and `applyL` applies
a represented map by XOR-ing the basis images selected by the argument's
bits.  These are proof devices for evaluating `crc32` on large inputs; the
program semantics is `crc32` itself. -/

/-- The CRC state update for a single zero byte. -/
def crcZ (c : Nat) : Nat := crcByte c 0

/-- Apply a linear map represented by its basis images: XOR of `m[i]` over
the set bits `i < 32` of `x`. -/
def applyL (m : List Nat) (x : Nat) : Nat :=
  (List.range 32).foldr (fun i acc => (if x.testBit i then m.getD i 0 else 0) ^^^ acc) 0

/-- `applyL` restricted to the low `k` bits (proof device for induction). -/
def applyB (m : List Nat) (k : Nat) (x : Nat) : Nat :=
  (List.range k).foldr (fun i acc => (if x.testBit i then m.getD i 0 else 0) ^^^ acc) 0

/-- The basis representation of a map on 32-bit values. -/
def repOf (f : Nat → Nat) : List Nat := (List.range 32).map fun i => f (2 ^ i)

/-- Representation of `m ∘ n`. -/
def composeL (m n : List Nat) : List Nat := n.map (applyL m)

/-- `k`-fold squaring: represents `m^(2^k)`. -/
def sqIter : Nat → List Nat → List Nat
  | 0, m => m
  | k + 1, m => sqIter k (composeL m m)

/-- Iterate a represented map `n` times. -/
def applyLIter (m : List Nat) : Nat → Nat → Nat
  | 0, x => x
  | n + 1, x => applyLIter m n (applyL m x)

/-- The represented update for `2^14` zero bytes. -/
def crcZmat14 : List Nat := sqIter 14 (repOf crcZ)

/-! ## Concrete instances used by the witnesses and counterexamples -/

/-- The C3 counterexample input image: 512 KiB, all zero except the
bootloader-settings `bank0.image_size` word at `0x7F018`, which reads
`0x0005C004` — an app region `[0x23000, 0x7F004)` that overlaps the
settings-CRC word at `0x7F000`. -/
def imgC3 : Img :=
  ⟨0x80000, fun i =>
    if i = 0x7F018 then 0x04 else if i = 0x7F019 then 0xC0 else
      if i = 0x7F01A then 0x05 else 0⟩

/-- The C3 counterexample patch file: no cleaning, no patches. -/
def pfC3 : PatchFile := ⟨[], []⟩

/-- `imgC3` after the kitchen writes the recomputed app CRC `0x20F4B0D5`
little-endian at `0x7F01C`. -/
def img2C3 : Img :=
  (((imgC3.setByte 0x7F01C 0xD5).setByte 0x7F01D 0xB0).setByte
    0x7F01E 0xF4).setByte 0x7F01F 0x20

/-- `img2C3` after the kitchen writes the recomputed settings CRC
`0x355924F3` little-endian at `0x7F000` — the image the kitchen emits. -/
def outC3 : Img :=
  (((img2C3.setByte 0x7F000 0xF3).setByte 0x7F001 0x24).setByte
    0x7F002 0x59).setByte 0x7F003 0x35

/-- A target whose FICR flash-size word reads 512 (KB) and whose flash
reads back `0x78563412` everywhere. -/
def devC6 : Dap := ⟨fun a => if a = 0x10000110 then 512 else 0x78563412⟩

def imgW4 : Img := ⟨4, fun i => if i = 2 then 0x42 else 0x41⟩

def imgC4 : Img := ⟨0x80000, fun _ => 0⟩

def pfC4 : PatchFile :=
  { cleanRegions := [], patches := [.puint8 0 1 0, .pfindReplace [1] [2]] }

/-- The C3 witness input: an all-zero image of the minimum size the
settings read allows (`0x7F024`); its decoded `bank0.image_size` is `0`,
so the app region is empty and clear of the settings page. -/
def imgW3 : Img := ⟨0x7F024, fun _ => 0⟩

/-- The image the kitchen emits on `imgW3`: the app-CRC slot gets
`CRC-32(empty) = 0` and the settings slot the CRC of the 32 in-range
settings bytes, `0x190A55AD`, little-endian. -/
def outW3 : Img :=
  (((((((imgW3.setByte 0x7F01C 0).setByte 0x7F01D 0).setByte
    0x7F01E 0).setByte 0x7F01F 0).setByte 0x7F000 0xAD).setByte
    0x7F001 0x55).setByte 0x7F002 0x0A).setByte 0x7F003 0x19


/-! # Theorems -/

/-! ## C1 — chip-erase poll exhaustion error code

The claim says a full-budget `ERASEALLSTATUS` poll (150 attempts, never
reading `0`) fails with `TIMEOUT`.  In the source the exhausted loop throws
`createError("ERASE_FAILED", "Erase timeout - ...")` (nrf52.ts:648), and
every exception inside the `try` — including a `TIMEOUT` thrown by
`withTimeout` around a status read — is re-wrapped into `ERASE_FAILED` by
the `catch` at nrf52.ts:692.  So the operation fails with `ERASE_FAILED`,
never `TIMEOUT`. -/

/-- If the poll loop never sees a zero status (and no read throws), it does
not complete. -/
theorem eraseStatusPoll_not_ok_true
    (sr : Nat → Except CoreErrorCode Nat)
    (h : ∀ i s, sr i = .ok s → s ≠ 0) :
    ∀ fuel i, eraseStatusPoll sr i fuel ≠ .ok true := by
  intro fuel
  induction fuel with
  | zero => intro i hc; simp [eraseStatusPoll] at hc
  | succ n ih =>
    intro i hc
    rw [eraseStatusPoll] at hc
    cases hsr : sr i with
    | error e => rw [hsr] at hc; exact Except.noConfusion hc
    | ok s =>
      have hs : s ≠ 0 := h i s hsr
      simp only [hsr] at hc
      rw [if_neg hs] at hc
      exact ih (i + 1) hc

/-- C1 (amended): if `performChipErase` polls `ERASEALLSTATUS` for the full
budget (150 attempts) without ever reading `0` — in particular when no
target is attached — the operation fails with error code `ERASE_FAILED`,
not `TIMEOUT`. -/
theorem claim_C1 (sr : Nat → Except CoreErrorCode Nat)
    (h : ∀ i s, sr i = .ok s → s ≠ 0) :
    performChipEraseM sr = .error .ERASE_FAILED := by
  unfold performChipEraseM
  cases hp : eraseStatusPoll sr 0 150 with
  | error e => rfl
  | ok b =>
    cases b with
    | false => rfl
    | true => exact absurd hp (eraseStatusPoll_not_ok_true sr h 150 0)

/-- C1 counterexample to the original claim: with a target whose
`ERASEALLSTATUS` always reads `1`, the erase does *not* fail with
`TIMEOUT` — it fails with `ERASE_FAILED`. -/
theorem claim_C1_counterexample :
    performChipEraseM (fun _ => .ok 1) ≠ .error .TIMEOUT ∧
      performChipEraseM (fun _ => .ok 1) = .error .ERASE_FAILED := by
  have h : performChipEraseM (fun _ => .ok 1) = .error .ERASE_FAILED := rfl
  refine ⟨?_, h⟩
  rw [h]
  intro hc
  injection hc with h2
  exact CoreErrorCode.noConfusion h2

/-- C1 witness: the amended theorem applied to the always-busy target. -/
theorem claim_C1_witness :
    performChipEraseM (fun _ => .ok 4294967295) = .error .ERASE_FAILED :=
  claim_C1 (fun _ => .ok 4294967295)
    (fun _ s hs => by injection hs with h; omega)

/-! ## C7 — `writeUICRBinary` length gate -/

/-- C7: for every byte array whose length is not exactly 1024,
`writeUICRBinary` fails with `INVALID_DATA` before performing any write to
the target (empty effect trace: NVMC is not enabled and no UICR word is
written); for a 1024-byte array it enables NVMC, writes all 256 words as a
single block — each word assembled little-endian from four consecutive
bytes — and disables NVMC. -/
theorem claim_C7 :
    (∀ data : List Nat, data.length ≠ 1024 →
      writeUICRBinaryM data = (.error .INVALID_DATA, [])) ∧
    (∀ data : List Nat, data.length = 1024 →
      writeUICRBinaryM data =
        (.ok (), [.memWrite NVMC_CONFIG 1,
                  .blockWrite UICR_BASE (uicrWords data),
                  .memWrite NVMC_CONFIG 0]) ∧
      (uicrWords data).length = 256 ∧
      ∀ i, i < 256 → (uicrWords data).getD i 0 =
        data.getD (4 * i) 0 + 256 * data.getD (4 * i + 1) 0 +
          65536 * data.getD (4 * i + 2) 0 + 16777216 * data.getD (4 * i + 3) 0) := by
  constructor
  · intro data h
    unfold writeUICRBinaryM
    rw [if_pos]
    exact h
  · intro data h
    refine ⟨?_, ?_, ?_⟩
    · unfold writeUICRBinaryM
      rw [if_neg]
      simp [h, UICR_SIZE]
    · simp [uicrWords, UICR_SIZE]
    · intro i hi
      simp only [uicrWords, List.getD_eq_getElem?_getD, List.getElem?_map,
        List.getElem?_range (by simpa [UICR_SIZE] using hi : i < UICR_SIZE / 4)]
      simp [readUInt32LE, List.getD_eq_getElem?_getD]

/-- C7 witness: a 1-byte buffer is rejected with an empty trace; a
1024-byte buffer produces the 256-word block. -/
theorem claim_C7_witness :
    writeUICRBinaryM [0] = (.error .INVALID_DATA, []) ∧
      (uicrWords (List.replicate 1024 7)).length = 256 :=
  ⟨claim_C7.1 [0] (by decide),
   (claim_C7.2 (List.replicate 1024 7) (List.length_replicate 1024 7)).2.1⟩

/-! ## C5 — `restore` verify gate -/

/-- C5: with verification enabled, a nonzero word-mismatch count makes
`restore` return `VERIFY_FAILED` with a trace that is exactly the flash
write — the UICR block write and the reset are not performed; a zero
mismatch count (with the 1024-byte UICR buffer restore is specified to
receive) lets it write the UICR as a single 256-word block, reset the
device and return `Ok`. -/
theorem claim_C5 :
    (∀ (d : Dap) (flash uicr : List Nat), verifyFlashErrors d flash ≠ 0 →
      restoreM d flash uicr true = (.error .VERIFY_FAILED, writeFlashM flash)) ∧
    (∀ (d : Dap) (flash uicr : List Nat), verifyFlashErrors d flash = 0 →
      uicr.length = 1024 →
      restoreM d flash uicr true =
        (.ok (), writeFlashM flash ++
          [.memWrite NVMC_CONFIG 1, .blockWrite UICR_BASE (uicrWords uicr),
           .memWrite NVMC_CONFIG 0] ++ [.reset]) ∧
      (uicrWords uicr).length = 256) := by
  constructor
  · intro d flash uicr h
    unfold restoreM
    rw [if_pos ⟨rfl, h⟩]
  · intro d flash uicr h hu
    have hw : writeUICRBinaryM uicr =
        (.ok (), [.memWrite NVMC_CONFIG 1,
                  .blockWrite UICR_BASE (uicrWords uicr),
                  .memWrite NVMC_CONFIG 0]) := by
      unfold writeUICRBinaryM
      rw [if_neg]
      simp [hu, UICR_SIZE]
    refine ⟨?_, ?_⟩
    · unfold restoreM
      rw [if_neg fun hc => hc.2 h, hw]
    · simp [uicrWords, UICR_SIZE]

/-- C5 witness: a target reading back `0` against expected bytes `[1]`
fails verification with the flash-only trace; a target reading back the
padded expected word restores successfully. -/
theorem claim_C5_witness :
    restoreM ⟨fun _ => 0⟩ [1] [] true =
      (.error .VERIFY_FAILED, writeFlashM [1]) ∧
    restoreM ⟨fun _ => 0xffffff01⟩ [1] (List.replicate 1024 0) true =
      (.ok (), writeFlashM [1] ++
        [.memWrite NVMC_CONFIG 1,
         .blockWrite UICR_BASE (uicrWords (List.replicate 1024 0)),
         .memWrite NVMC_CONFIG 0] ++ [.reset]) :=
  ⟨claim_C5.1 ⟨fun _ => 0⟩ [1] [] (by decide),
   (claim_C5.2 ⟨fun _ => 0xffffff01⟩ [1] (List.replicate 1024 0)
     (by decide) (List.length_replicate 1024 0)).1⟩

/-! ## C9 — `backup` result sizes -/

/-- Storing a word list into a buffer never changes its length. -/
theorem storeWords_length (ws : List Nat) :
    ∀ (buffer : List Nat) (base : Nat),
      (storeWords buffer base ws).length = buffer.length := by
  induction ws with
  | nil => intro buffer base; rfl
  | cons w ws ih =>
    intro buffer base
    rw [storeWords, ih]
    simp only [writeUInt32LEList, List.length_set]

/-- The `readFlash` chunk loop never changes the buffer length. -/
theorem readFlashChunks_length (d : Dap) (size : Nat) :
    ∀ (fuel : Nat) (buffer : List Nat) (off : Nat),
      (readFlashChunks d size buffer off fuel).length = buffer.length := by
  intro fuel
  induction fuel with
  | zero => intro buffer off; rfl
  | succ n ih =>
    intro buffer off
    rw [readFlashChunks]
    by_cases h : off < size
    · rw [if_pos h, ih, storeWords_length]
    · rw [if_neg h]

/-- C9: for every (successful) backup, the returned flash image has length
`deviceInfo.flash × 1024` — the FICR flash size in KB converted to bytes —
and the returned UICR image has length exactly 1024. -/
theorem claim_C9 (d : Dap) :
    (backupM d).1.length = (readDeviceInfoM d).flash * 1024 ∧
      (backupM d).2.length = 1024 := by
  constructor
  · simp only [backupM]
    rw [readFlashM, readFlashChunks_length, List.length_replicate]
  · simp only [backupM]
    rw [readUICRBinaryM, storeWords_length, List.length_replicate]
    rfl

/-! ## C10 — `readBootloaderSettings` never rejects

The whole body of `readBootloaderSettings` is wrapped in
`try { ... } catch { return null; }` (nrf52.ts:200/272), and decoded
settings whose first word is `0xFFFFFFFF` also return `null`
(nrf52.ts:254), so a read failure and erased settings are
indistinguishable to the caller — both are `none`, and the function (a
total one in this model) never propagates the failure. -/

/-- Word stores at or above `base` leave every byte below `base` alone. -/
theorem storeWords_getD_of_lt (tail : List Nat) :
    ∀ (b : List Nat) (base i : Nat), i < base →
      (storeWords b base tail).getD i 0 = b.getD i 0 := by
  induction tail with
  | nil => intro b base i _; rfl
  | cons x xs ih =>
    intro b base i hi
    rw [storeWords, ih _ _ _ (by omega)]
    simp only [writeUInt32LEList, List.getD_eq_getElem?_getD]
    rw [List.getElem?_set_ne (by omega), List.getElem?_set_ne (by omega),
      List.getElem?_set_ne (by omega), List.getElem?_set_ne (by omega)]

/-- Bytes `0..3` of the staging buffer are exactly the first word's
little-endian bytes, so the decoded `crc` is the first word (masked to 32
bits, as a `Uint32Array` element is). -/
theorem settingsBuffer_crc (words : List Nat) :
    readUInt32LE (settingsBuffer words) 0 = words.getD 0 0 % 4294967296 := by
  cases words with
  | nil => decide
  | cons w ws =>
    have h1 : settingsBuffer (w :: ws) =
        storeWords (writeUInt32LEList (List.replicate 92 0) (w % 4294967296) 0)
          4 ((ws.take 22).map (· % 4294967296)) := rfl
    rw [h1, readUInt32LE,
      storeWords_getD_of_lt _ _ _ _ (by omega),
      storeWords_getD_of_lt _ _ _ _ (by omega),
      storeWords_getD_of_lt _ _ _ _ (by omega),
      storeWords_getD_of_lt _ _ _ _ (by omega)]
    simp only [writeUInt32LEList, List.getD_eq_getElem?_getD]
    rw [List.getElem?_set_ne (by omega), List.getElem?_set_ne (by omega),
      List.getElem?_set_ne (by omega), List.getElem?_set_self (by simp),
      List.getElem?_set_ne (by omega), List.getElem?_set_ne (by omega),
      List.getElem?_set_self (by simp), List.getElem?_set_ne (by omega),
      List.getElem?_set_self (by simp), List.getElem?_set_self (by simp)]
    simp only [Option.getD_some, List.getElem?_cons_zero]
    omega

/-- C10: `readBootloaderSettings` never raises — a failing block read
returns `none`, exactly as settings whose first word is `0xFFFFFFFF` do,
so the caller cannot distinguish a read failure from erased settings. -/
theorem claim_C10 :
    (∀ e : CoreErrorCode, readBootloaderSettingsM (.error e) = none) ∧
    (∀ words : List Nat, words.getD 0 0 % 4294967296 = 0xffffffff →
      readBootloaderSettingsM (.ok words) = none) := by
  constructor
  · intro e; rfl
  · intro words h
    simp only [readBootloaderSettingsM, settingsBuffer_crc]
    rw [if_pos h]

/-- C10 witness: a timed-out read and an erased settings page (all words
`0xFFFFFFFF`) both decode to `none`. -/
theorem claim_C10_witness :
    readBootloaderSettingsM (.error .TIMEOUT) = none ∧
      readBootloaderSettingsM (.ok (List.replicate 23 0xffffffff)) = none :=
  ⟨claim_C10.1 .TIMEOUT,
   claim_C10.2 (List.replicate 23 0xffffffff) (by decide)⟩

/-! ## C8 — `writeFlash` word assembly and `0xFF` padding -/

/-- The words of all chunks from `off` on, in one flat list: one word per 4
bytes of the remaining data, each assembled by `mkWord` at its absolute
byte offset. -/
theorem writeFlashChunks_flatten (data : List Nat) :
    ∀ (fuel off : Nat), data.length ≤ off + 4096 * fuel →
      ((writeFlashChunks data off fuel).map effectWords).flatten =
        (List.range ((data.length - off + 3) / 4)).map
          (fun j => mkWord data (off + 4 * j)) := by
  intro fuel
  induction fuel with
  | zero =>
    intro off h
    rw [writeFlashChunks, show (data.length - off + 3) / 4 = 0 by omega]
    rfl
  | succ n ih =>
    intro off h
    by_cases hlt : off < data.length
    · rw [writeFlashChunks, if_pos hlt, List.map_cons]
      show effectWords _ ++ _ = _
      rw [show effectWords (.blockWrite (FLASH_BASE + off) (chunkWords data off)) =
        chunkWords data off from rfl]
      rw [ih (off + min 4096 (data.length - off)) (by omega)]
      by_cases hbig : 4096 ≤ data.length - off
      · have hmin : min 4096 (data.length - off) = 4096 := Nat.min_eq_left hbig
        have hsplit : (data.length - off + 3) / 4 =
            1024 + (data.length - (off + 4096) + 3) / 4 := by omega
        have hchunk : chunkWords data off =
            (List.range 1024).map fun i => mkWord data (off + 4 * i) := by
          rw [chunkWords, hmin]
        rw [hmin, hsplit, List.range_add, List.map_append, List.map_map, hchunk]
        congr 1
        apply List.map_congr_left
        intro j _
        show mkWord data (off + 4096 + 4 * j) = mkWord data (off + 4 * (1024 + j))
        exact congrArg (mkWord data) (by omega)
      · have hoff : off + min 4096 (data.length - off) = data.length := by omega
        rw [hoff, show (data.length - data.length + 3) / 4 = 0 by omega]
        rw [show List.range 0 = [] from rfl, List.map_nil, List.append_nil]
        rw [chunkWords, show min 4096 (data.length - off) = data.length - off by omega]
    · rw [writeFlashChunks, if_neg hlt,
        show (data.length - off + 3) / 4 = 0 by omega]
      rfl

/-- `flashWords` in closed form. -/
theorem flashWords_eq (data : List Nat) :
    flashWords data =
      (List.range ((data.length + 3) / 4)).map (fun j => mkWord data (4 * j)) := by
  rw [flashWords, writeFlashChunks_flatten data (data.length + 1) 0 (by omega)]
  simp only [Nat.sub_zero, Nat.zero_add]

/-- C8: when `data.length` is not a multiple of 4, `writeFlash` writes
`⌈n/4⌉` words; every full word is assembled from the buffer little-endian,
and the final word carries the trailing `n mod 4` bytes in its low-order
byte positions with `0xFF` in the remaining positions. -/
theorem claim_C8 (data : List Nat) (h : data.length % 4 ≠ 0) :
    (flashWords data).length = (data.length + 3) / 4 ∧
    (∀ j, 4 * j + 4 ≤ data.length →
      (flashWords data).getD j 0 =
        data.getD (4 * j) 0 + 256 * data.getD (4 * j + 1) 0 +
          65536 * data.getD (4 * j + 2) 0 + 16777216 * data.getD (4 * j + 3) 0) ∧
    (flashWords data).getD (data.length / 4) 0 =
      (if data.length % 4 = 1 then
        data.getD (data.length - 1) 0 + 256 * 0xff + 65536 * 0xff + 16777216 * 0xff
       else if data.length % 4 = 2 then
        data.getD (data.length - 2) 0 + 256 * data.getD (data.length - 1) 0 +
          65536 * 0xff + 16777216 * 0xff
       else
        data.getD (data.length - 3) 0 + 256 * data.getD (data.length - 2) 0 +
          65536 * data.getD (data.length - 1) 0 + 16777216 * 0xff) := by
  have hget : ∀ j, j < (data.length + 3) / 4 →
      (flashWords data).getD j 0 = mkWord data (4 * j) := by
    intro j hj
    rw [flashWords_eq]
    simp only [List.getD_eq_getElem?_getD, List.getElem?_map, List.getElem?_range hj]
    rfl
  refine ⟨?_, ?_, ?_⟩
  · rw [flashWords_eq]
    simp
  · intro j hj
    rw [hget j (by omega), mkWord]
    rw [if_pos (by omega), if_pos (by omega), if_pos (by omega), if_pos (by omega)]
  · rw [hget (data.length / 4) (by omega), mkWord]
    rcases (by omega : data.length % 4 = 1 ∨ data.length % 4 = 2 ∨ data.length % 4 = 3)
      with h1 | h2 | h3
    · rw [if_pos h1,
        if_pos (show 4 * (data.length / 4) < data.length by omega),
        if_neg (show ¬(4 * (data.length / 4) + 1 < data.length) by omega),
        if_neg (show ¬(4 * (data.length / 4) + 2 < data.length) by omega),
        if_neg (show ¬(4 * (data.length / 4) + 3 < data.length) by omega),
        show 4 * (data.length / 4) = data.length - 1 by omega]
    · rw [if_neg (show ¬(data.length % 4 = 1) by omega), if_pos h2,
        if_pos (show 4 * (data.length / 4) < data.length by omega),
        if_pos (show 4 * (data.length / 4) + 1 < data.length by omega),
        if_neg (show ¬(4 * (data.length / 4) + 2 < data.length) by omega),
        if_neg (show ¬(4 * (data.length / 4) + 3 < data.length) by omega),
        show 4 * (data.length / 4) + 1 = data.length - 1 by omega,
        show 4 * (data.length / 4) = data.length - 2 by omega]
    · rw [if_neg (show ¬(data.length % 4 = 1) by omega),
        if_neg (show ¬(data.length % 4 = 2) by omega),
        if_pos (show 4 * (data.length / 4) < data.length by omega),
        if_pos (show 4 * (data.length / 4) + 1 < data.length by omega),
        if_pos (show 4 * (data.length / 4) + 2 < data.length by omega),
        if_neg (show ¬(4 * (data.length / 4) + 3 < data.length) by omega),
        show 4 * (data.length / 4) + 2 = data.length - 1 by omega,
        show 4 * (data.length / 4) + 1 = data.length - 2 by omega,
        show 4 * (data.length / 4) = data.length - 3 by omega]

/-- C8 witness: the five-byte buffer `[1,2,3,4,5]` produces two words, the
full word `0x04030201` and the padded word `0xFFFFFF05`. -/
theorem claim_C8_witness :
    (flashWords [1, 2, 3, 4, 5]).length = 2 ∧
      (flashWords [1, 2, 3, 4, 5]).getD 0 0 = 0x04030201 ∧
      (flashWords [1, 2, 3, 4, 5]).getD 1 0 = 0xffffff05 := by
  obtain ⟨hl, hfull, hlast⟩ := claim_C8 [1, 2, 3, 4, 5] (by decide)
  exact ⟨hl, by rw [hfull 0 (by decide)]; decide, by simpa using hlast⟩

/-! ## C2 — big-endian `uint16`/`uint32` kitchen patches -/

/-- C2: kitchen verification of a `uint16` (resp. `uint32`) patch reads 2
(resp. 4) bytes at the patch address in big-endian byte order and compares
them to `original` (`readUInt16BE`/`readUInt32BE`), and application writes
`data` in big-endian byte order (`writeUInt16BE`/`writeUInt32BE`), leaving
every other byte and the image size unchanged. -/
theorem claim_C2 :
    (∀ (img : Img) (a orig data : Nat), a + 2 ≤ img.size →
      (verifyOriginal img (.puint16 a orig data) = some none ↔
        256 * img.get8 a + img.get8 (a + 1) = orig)) ∧
    (∀ (img : Img) (a orig data : Nat), data ≤ 0xffff → a + 2 ≤ img.size →
      ∃ img2, applyPatch img (.puint16 a orig data) none = some img2 ∧
        img2.get8 a = data / 256 ∧ img2.get8 (a + 1) = data % 256 ∧
        img2.size = img.size ∧
        ∀ j, j ≠ a → j ≠ a + 1 → img2.byteAt j = img.byteAt j) ∧
    (∀ (img : Img) (a orig data : Nat), a + 4 ≤ img.size →
      (verifyOriginal img (.puint32 a orig data) = some none ↔
        16777216 * img.get8 a + 65536 * img.get8 (a + 1) +
          256 * img.get8 (a + 2) + img.get8 (a + 3) = orig)) ∧
    (∀ (img : Img) (a orig data : Nat), data ≤ 0xffffffff → a + 4 ≤ img.size →
      ∃ img2, applyPatch img (.puint32 a orig data) none = some img2 ∧
        img2.get8 a = data / 16777216 ∧ img2.get8 (a + 1) = data / 65536 % 256 ∧
        img2.get8 (a + 2) = data / 256 % 256 ∧ img2.get8 (a + 3) = data % 256 ∧
        img2.size = img.size ∧
        ∀ j, j ≠ a → j ≠ a + 1 → j ≠ a + 2 → j ≠ a + 3 →
          img2.byteAt j = img.byteAt j) := by
  refine ⟨?_, ?_, ?_, ?_⟩
  · intro img a orig data h
    rw [verifyOriginal, Img.readU16BE, if_pos h]
    show (if 256 * img.get8 a + img.get8 (a + 1) = orig then
      some (none : Option Nat) else none) = some none ↔ _
    by_cases hc : 256 * img.get8 a + img.get8 (a + 1) = orig
    · rw [if_pos hc]
      simp [hc]
    · rw [if_neg hc]
      simp [hc]
  · intro img a orig data hd h
    refine ⟨(img.setByte a (data / 256)).setByte (a + 1) (data % 256),
      ?_, ?_, ?_, ?_, ?_⟩
    · rw [applyPatch, Img.writeU16BE, if_pos ⟨hd, h⟩]
    · simp only [Img.get8, Img.setByte]
      split_ifs <;> omega
    · simp only [Img.get8, Img.setByte]
      split_ifs <;> omega
    · rfl
    · intro j hj1 hj2
      simp only [Img.setByte]
      rw [if_neg hj2, if_neg hj1]
  · intro img a orig data h
    rw [verifyOriginal, Img.readU32BE, if_pos h]
    show (if 16777216 * img.get8 a + 65536 * img.get8 (a + 1) +
        256 * img.get8 (a + 2) + img.get8 (a + 3) = orig then
      some (none : Option Nat) else none) = some none ↔ _
    by_cases hc : 16777216 * img.get8 a + 65536 * img.get8 (a + 1) +
        256 * img.get8 (a + 2) + img.get8 (a + 3) = orig
    · rw [if_pos hc]
      simp [hc]
    · rw [if_neg hc]
      simp [hc]
  · intro img a orig data hd h
    refine ⟨(((img.setByte a (data / 16777216)).setByte (a + 1)
        (data / 65536 % 256)).setByte (a + 2) (data / 256 % 256)).setByte
          (a + 3) (data % 256),
      ?_, ?_, ?_, ?_, ?_, ?_, ?_⟩
    · rw [applyPatch, Img.writeU32BE, if_pos ⟨hd, h⟩]
    · simp only [Img.get8, Img.setByte]
      split_ifs <;> omega
    · simp only [Img.get8, Img.setByte]
      split_ifs <;> omega
    · simp only [Img.get8, Img.setByte]
      split_ifs <;> omega
    · simp only [Img.get8, Img.setByte]
      split_ifs <;> omega
    · rfl
    · intro j hj1 hj2 hj3 hj4
      simp only [Img.setByte]
      rw [if_neg hj4, if_neg hj3, if_neg hj2, if_neg hj1]

/-- C2 witness: on an image of `0x23` bytes, a `uint16` patch with
`original = 0x2323` verifies, and applying `data = 0x2303` leaves bytes
`0x23` then `0x03` at the address. -/
theorem claim_C2_witness :
    verifyOriginal ⟨4, fun _ => 0x23⟩ (.puint16 1 0x2323 0x2303) = some none ∧
      (applyPatch ⟨4, fun _ => 0x23⟩ (.puint16 1 0x2323 0x2303) none).map
        (fun i => (i.get8 1, i.get8 2)) = some (0x23, 0x03) := by
  constructor
  · exact (claim_C2.1 ⟨4, fun _ => 0x23⟩ 1 0x2323 0x2303 (by decide)).mpr (by decide)
  · obtain ⟨img2, happ, h1, h2, -, -⟩ :=
      claim_C2.2.1 ⟨4, fun _ => 0x23⟩ 1 0x2323 0x2303 (by decide) (by decide)
    rw [show (1 : Nat) + 1 = 2 from rfl] at h2
    rw [happ]
    simp only [Option.map_some']
    rw [h1, h2]

/-! ## C6 — `restore` does not validate the flash length

`restore` (operations/restore.ts) never compares `flashData.length` against
the target's flash size — neither does `writeFlash` — so a buffer of any
length is written as-is.  Only the UICR buffer length is validated (by
`writeUICRBinary`). -/

set_option maxRecDepth 8192 in
/-- C6 counterexample: a 4-byte `flashData` differs from the target flash
size (512 KiB), yet `restore` succeeds (`Ok`) and performs the flash write
(trace element 1 is the `writeBlock` of the 4-byte buffer) instead of
failing. -/
theorem claim_C6_counterexample :
    [0x12, 0x34, 0x56, 0x78].length ≠ (readDeviceInfoM devC6).flash * 1024 ∧
    (restoreM devC6 [0x12, 0x34, 0x56, 0x78] (List.replicate 1024 0) true).1 =
      .ok () ∧
    (restoreM devC6 [0x12, 0x34, 0x56, 0x78] (List.replicate 1024 0) true).2.getD
      1 .reset =
      .blockWrite (FLASH_BASE + 0) (chunkWords [0x12, 0x34, 0x56, 0x78] 0) := by
  refine ⟨by decide, ?_, ?_⟩
  · rfl
  · rfl

/-- C6 (amended): `restore` performs no length check on `flashData`: with
verification passing and a 1024-byte UICR buffer it returns `Ok` for a
flash buffer of any length, regardless of the target's flash size. -/
theorem claim_C6 (d : Dap) (flash uicr : List Nat)
    (hu : uicr.length = 1024) (hv : verifyFlashErrors d flash = 0) :
    (restoreM d flash uicr true).1 = .ok () := by
  unfold restoreM
  rw [if_neg fun hc => hc.2 hv]
  have hw : writeUICRBinaryM uicr =
      (.ok (), [.memWrite NVMC_CONFIG 1,
                .blockWrite UICR_BASE (uicrWords uicr),
                .memWrite NVMC_CONFIG 0]) := by
    unfold writeUICRBinaryM
    rw [if_neg]
    simp [hu, UICR_SIZE]
  rw [hw]

/-- C6 witness: the amended theorem at an empty flash buffer. -/
theorem claim_C6_witness :
    (restoreM ⟨fun _ => 0xffffffff⟩ [] (List.replicate 1024 0) true).1 =
      .ok () :=
  claim_C6 ⟨fun _ => 0xffffffff⟩ [] (List.replicate 1024 0)
    (List.length_replicate 1024 0) (by decide)

/-! ## C4 — find-replace verification, abort, and application -/

/-- `true` when the settings read succeeds and some patch fails to verify
on the working (possibly cleaned) image — the situation in which the
kitchen aborts. -/
def kitchenVerifyFails (img : Img) (pf : PatchFile) : Bool :=
  match kitchenWorking img pf with
  | some w => pf.patches.any fun p => (verifyOriginal w p).isNone
  | none => false

/-- If any patch fails to verify, the verification loop yields `none`. -/
theorem verifyAll_eq_none_of_any (w : Img) :
    ∀ ps : List Patch, (ps.any fun p => (verifyOriginal w p).isNone) = true →
      verifyAll w ps = none := by
  intro ps
  induction ps with
  | nil => intro h; simp at h
  | cons p ps ih =>
    intro h
    rw [verifyAll]
    cases hv : verifyOriginal w p with
    | none => rfl
    | some fa =>
      rw [List.any_cons, hv] at h
      simp only [Option.isNone_some, Bool.false_or] at h
      rw [ih h]

/-- C4: kitchen verification of a find-replace patch succeeds iff the
`find` byte pattern occurs exactly once in the image and
`len(find) = len(replace)`; a successful verification records exactly the
offset of that single occurrence; if any patch fails verification the
whole operation aborts with no output image; and application writes the
`replace` bytes at the recorded offset, leaving the image size and every
byte outside `[offset, offset + len(replace))` unchanged. -/
theorem claim_C4 :
    (∀ (img : Img) (f r : List Nat),
      ((verifyOriginal img (.pfindReplace f r)).isSome = true ↔
        (findAllOccurrences img f).length = 1 ∧ f.length = r.length)) ∧
    (∀ (img : Img) (f r : List Nat) (a : Nat),
      verifyOriginal img (.pfindReplace f r) = some (some a) →
        findAllOccurrences img f = [a]) ∧
    (∀ (img : Img) (pf : PatchFile), kitchenVerifyFails img pf = true →
      kitchenPatch img pf = none) ∧
    (∀ (img : Img) (f r : List Nat) (a : Nat),
      applyPatch img (.pfindReplace f r) (some a) = some (img.copyIn a r) ∧
      (∀ j, j < r.length →
        (img.copyIn a r).get8 (a + j) = r.getD j 0 % 256) ∧
      (img.copyIn a r).size = img.size ∧
      (∀ j, j < a ∨ a + r.length ≤ j →
        (img.copyIn a r).byteAt j = img.byteAt j)) := by
  refine ⟨?_, ?_, ?_, ?_⟩
  · intro img f r
    rw [verifyOriginal]
    cases hocc : findAllOccurrences img f with
    | nil => simp
    | cons a t =>
      cases t with
      | nil =>
        show (if f.length = r.length then
          some (some a) else none).isSome = true ↔ _
        by_cases hl : f.length = r.length
        · rw [if_pos hl]
          simp [hl]
        · rw [if_neg hl]
          simp [hl]
      | cons b t2 => simp
  · intro img f r a h
    rw [verifyOriginal] at h
    cases hocc : findAllOccurrences img f with
    | nil => rw [hocc] at h; exact Option.noConfusion h
    | cons x t =>
      cases t with
      | nil =>
        rw [hocc] at h
        have h2 : (if f.length = r.length then
            some (some x) else none) = some (some a) := h
        by_cases hl : f.length = r.length
        · rw [if_pos hl] at h2
          injection h2 with h3
          injection h3 with h4
          rw [h4]
        · rw [if_neg hl] at h2
          exact Option.noConfusion h2
      | cons b t2 => rw [hocc] at h; exact Option.noConfusion h
  · intro img pf h
    rw [kitchenVerifyFails] at h
    cases hw : kitchenWorking img pf with
    | none =>
      rw [hw] at h
      exact Bool.noConfusion h
    | some w =>
      rw [hw] at h
      have h2 : (pf.patches.any fun p => (verifyOriginal w p).isNone) = true := h
      cases hbl : readKitchenSettings img with
      | none => simp [kitchenPatch, hbl]
      | some bl =>
        simp only [kitchenPatch, hbl, hw, verifyAll_eq_none_of_any w pf.patches h2]
  · intro img f r a
    refine ⟨rfl, ?_, rfl, ?_⟩
    · intro j hj
      show (if a ≤ a + j ∧ a + j < a + r.length then
        r.getD (a + j - a) 0 % 256 else img.byteAt (a + j)) % 256 = _
      rw [if_pos ⟨by omega, by omega⟩, show a + j - a = j by omega]
      omega
    · intro j hj
      show (if a ≤ j ∧ j < a + r.length then _ else img.byteAt j) = _
      rw [if_neg (by omega)]

/-- C4 witness: on a 4-byte image with a unique `0x42` at offset 2, the
find-replace verification succeeds recording offset 2 and application
writes the replacement there; and a patch file whose first patch fails to
verify makes the whole kitchen run on a full-size image produce no
output. -/
theorem claim_C4_witness :
    (verifyOriginal imgW4 (.pfindReplace [0x42] [0x43])).isSome = true ∧
    findAllOccurrences imgW4 [0x42] = [2] ∧
    kitchenPatch imgC4 pfC4 = none ∧
    applyPatch imgW4 (.pfindReplace [0x42] [0x43]) (some 2) =
      some (imgW4.copyIn 2 [0x43]) ∧
    (imgW4.copyIn 2 [0x43]).get8 2 = 0x43 := by
  refine ⟨?_, ?_, ?_, ?_, ?_⟩
  · exact (claim_C4.1 imgW4 [0x42] [0x43]).mpr ⟨by decide, rfl⟩
  · exact claim_C4.2.1 imgW4 [0x42] [0x43] 2 (by decide)
  · exact claim_C4.2.2.1 imgC4 pfC4 (by decide)
  · exact (claim_C4.2.2.2 imgW4 [0x42] [0x43] 2).1
  · have := (claim_C4.2.2.2 imgW4 [0x42] [0x43] 2).2.1 0 (by decide)
    simpa using this

/-! ## XOR-fold helper lemmas -/

/-- Extract the initial value of an XOR-shaped fold. -/
theorem foldr_xor_init (t : Nat → Nat) (l : List Nat) (c : Nat) :
    l.foldr (fun i acc => t i ^^^ acc) c =
      l.foldr (fun i acc => t i ^^^ acc) 0 ^^^ c := by
  induction l with
  | nil => simp
  | cons a l ih =>
    simp only [List.foldr_cons, ih]
    rw [Nat.xor_assoc]

/-- An XOR-shaped fold of pointwise-XORed terms splits. -/
theorem foldr_xor_split (f g : Nat → Nat) (l : List Nat) :
    l.foldr (fun i acc => (f i ^^^ g i) ^^^ acc) 0 =
      l.foldr (fun i acc => f i ^^^ acc) 0 ^^^
        l.foldr (fun i acc => g i ^^^ acc) 0 := by
  induction l with
  | nil => simp
  | cons a l ih =>
    simp only [List.foldr_cons, ih]
    rw [Nat.xor_assoc, Nat.xor_assoc]
    congr 1
    rw [← Nat.xor_assoc, ← Nat.xor_assoc, Nat.xor_comm (g a)]

/-- XOR-shaped folds of pointwise-equal terms agree. -/
theorem foldr_xor_ext (f g : Nat → Nat) (l : List Nat)
    (h : ∀ i ∈ l, f i = g i) :
    l.foldr (fun i acc => f i ^^^ acc) 0 =
      l.foldr (fun i acc => g i ^^^ acc) 0 := by
  induction l with
  | nil => rfl
  | cons a l ih =>
    simp only [List.foldr_cons]
    rw [h a (List.mem_cons_self a l), ih fun i hi => h i (List.mem_cons_of_mem a hi)]

/-- A linear map distributes over an XOR-shaped fold. -/
theorem foldr_xor_map (F : Nat → Nat)
    (hlin : ∀ a b, F (a ^^^ b) = F a ^^^ F b) (hz : F 0 = 0)
    (t : Nat → Nat) (l : List Nat) :
    F (l.foldr (fun i acc => t i ^^^ acc) 0) =
      l.foldr (fun i acc => F (t i) ^^^ acc) 0 := by
  induction l with
  | nil => simpa using hz
  | cons a l ih => simp only [List.foldr_cons, hlin, ih]

/-! ## `applyL` basics -/

theorem applyB_32_eq_applyL (m : List Nat) (x : Nat) :
    applyB m 32 x = applyL m x := rfl

/-- One-step peeling of `applyB`. -/
theorem applyB_succ (m : List Nat) (k x : Nat) :
    applyB m (k + 1) x =
      applyB m k x ^^^ (if x.testBit k then m.getD k 0 else 0) := by
  rw [applyB, applyB, List.range_succ, List.foldr_append, List.foldr_cons,
    List.foldr_nil, foldr_xor_init, Nat.xor_zero]

/-- `applyB` only looks at the low `k` bits. -/
theorem applyB_congr (m : List Nat) :
    ∀ (k : Nat) (x y : Nat), (∀ i, i < k → x.testBit i = y.testBit i) →
      applyB m k x = applyB m k y := by
  intro k
  induction k with
  | zero => intro x y _; rfl
  | succ n ih =>
    intro x y h
    rw [applyB_succ, applyB_succ, ih x y fun i hi => h i (by omega),
      h n (by omega)]

theorem applyL_zero (m : List Nat) : applyL m 0 = 0 := by
  rw [applyL]
  rw [show (fun i acc => (if Nat.testBit 0 i then m.getD i 0 else 0) ^^^ acc) =
    fun i acc => (fun _ => (0 : Nat)) i ^^^ acc by
      funext i acc
      rw [Nat.zero_testBit, if_neg Bool.false_ne_true]]
  induction (List.range 32) with
  | nil => rfl
  | cons a l ih =>
    rw [List.foldr_cons]
    show (0 : Nat) ^^^ _ = 0
    rw [Nat.zero_xor]
    exact ih

/-- `applyL m` is XOR-linear in its argument. -/
theorem applyL_xor (m : List Nat) (a b : Nat) :
    applyL m (a ^^^ b) = applyL m a ^^^ applyL m b := by
  rw [applyL, applyL, applyL, ← foldr_xor_split]
  apply foldr_xor_ext
  intro i _
  rw [Nat.testBit_xor]
  cases ha : a.testBit i <;> cases hb : b.testBit i <;> simp

/-! ## Basis expansion: `applyL (repOf f)` computes a linear `f` -/

theorem repOf_getD (f : Nat → Nat) (i : Nat) (hi : i < 32) :
    (repOf f).getD i 0 = f (2 ^ i) := by
  rw [repOf, List.getD_eq_getElem?_getD, List.getElem?_map, List.getElem?_range hi]
  rfl

/-- A number below `2^(k+1)` with bit `k` clear is below `2^k`. -/
theorem lt_two_pow_of_testBit_false (x k : Nat) (hx : x < 2 ^ (k + 1))
    (hb : x.testBit k = false) : x < 2 ^ k := by
  have hpos : 0 < 2 ^ k := Nat.pos_pow_of_pos k (by omega)
  have h2 : x / 2 ^ k % 2 = 0 := by
    rw [Nat.testBit_to_div_mod] at hb
    simpa using hb
  have h3 : x / 2 ^ k < 2 := by
    rw [Nat.div_lt_iff_lt_mul hpos]
    calc x < 2 ^ (k + 1) := hx
    _ = 2 * 2 ^ k := by ring
  have h4 : x / 2 ^ k = 0 := by
    interval_cases h : x / 2 ^ k
    · rfl
    · exact absurd h2 (by decide)
  exact (Nat.div_eq_zero_iff hpos).mp h4

theorem applyB_repOf (f : Nat → Nat)
    (hlin : ∀ a b, f (a ^^^ b) = f a ^^^ f b) :
    ∀ k, k ≤ 32 → ∀ x, x < 2 ^ k → applyB (repOf f) k x = f x := by
  have hz : f 0 = 0 := by
    have h0 := hlin 0 0
    rw [Nat.xor_self, Nat.xor_self] at h0
    exact h0
  intro k
  induction k with
  | zero =>
    intro _ x hx
    have hx0 : x = 0 := by omega
    rw [hx0]
    exact hz.symm
  | succ n ih =>
    intro hk x hx
    rw [applyB_succ]
    cases hb : x.testBit n with
    | false =>
      rw [if_neg (by simp [hb]), Nat.xor_zero]
      exact ih (by omega) x (lt_two_pow_of_testBit_false x n hx hb)
    | true =>
      have hxlt : x ^^^ 2 ^ n < 2 ^ (n + 1) :=
        Nat.xor_lt_two_pow hx (Nat.pow_lt_pow_right (by omega) (by omega))
      have hbk : (x ^^^ 2 ^ n).testBit n = false := by
        rw [Nat.testBit_xor, hb, Nat.testBit_two_pow_self]
        rfl
      have hxor : x ^^^ 2 ^ n < 2 ^ n :=
        lt_two_pow_of_testBit_false _ n hxlt hbk
      have hbits : ∀ i, i < n → x.testBit i = (x ^^^ 2 ^ n).testBit i := by
        intro i hi
        rw [Nat.testBit_xor, Nat.testBit_two_pow_of_ne (by omega : n ≠ i)]
        cases x.testBit i <;> rfl
      rw [applyB_congr (repOf f) n x (x ^^^ 2 ^ n) hbits, if_pos rfl,
        repOf_getD f n (by omega), ih (by omega) _ hxor, ← hlin,
        Nat.xor_cancel_right]

/-- `applyL (repOf f) = f` on 32-bit values for linear `f`. -/
theorem applyL_repOf (f : Nat → Nat)
    (hlin : ∀ a b, f (a ^^^ b) = f a ^^^ f b) (x : Nat) (hx : x < 2 ^ 32) :
    applyL (repOf f) x = f x := by
  rw [← applyB_32_eq_applyL]
  exact applyB_repOf f hlin 32 (by omega) x hx

/-! ## Composition of represented maps -/

theorem getD_composeL (m n : List Nat) (hn : n.length = 32) (i : Nat)
    (hi : i < 32) : (composeL m n).getD i 0 = applyL m (n.getD i 0) := by
  rw [composeL, List.getD_eq_getElem?_getD, List.getElem?_map,
    List.getD_eq_getElem?_getD, List.getElem?_eq_getElem (by omega), Option.map_some']
  rfl

theorem applyL_composeL (m n : List Nat) (hn : n.length = 32) (x : Nat) :
    applyL (composeL m n) x = applyL m (applyL n x) := by
  rw [show applyL n x =
    (List.range 32).foldr
      (fun i acc => (if x.testBit i then n.getD i 0 else 0) ^^^ acc) 0 from rfl,
    foldr_xor_map (applyL m) (applyL_xor m) (applyL_zero m), applyL]
  apply foldr_xor_ext
  intro i hi
  have hi' : i < 32 := List.mem_range.mp hi
  rw [getD_composeL m n hn i hi']
  cases hb : x.testBit i
  · simp [applyL_zero]
  · simp

theorem composeL_length (m n : List Nat) : (composeL m n).length = n.length :=
  List.length_map n (applyL m)

theorem repOf_length (f : Nat → Nat) : (repOf f).length = 32 := by
  rw [repOf, List.length_map, List.length_range]

theorem sqIter_length : ∀ (k : Nat) (m : List Nat),
    (sqIter k m).length = m.length := by
  intro k
  induction k with
  | zero => intro m; rfl
  | succ n ih => intro m; rw [sqIter, ih, composeL_length]

/-- `sqIter k m` represents the `2^k`-fold iterate of the map `m`
represents. -/
theorem sqIter_spec : ∀ (k : Nat) (m : List Nat) (f : Nat → Nat),
    m.length = 32 → (∀ x, x < 2 ^ 32 → applyL m x = f x) →
    (∀ x, x < 2 ^ 32 → f x < 2 ^ 32) →
    ∀ x, x < 2 ^ 32 → applyL (sqIter k m) x = f^[2 ^ k] x := by
  intro k
  induction k with
  | zero =>
    intro m f _ hagree _ x hx
    rw [sqIter]
    simpa using hagree x hx
  | succ n ih =>
    intro m f hlen hagree hpres x hx
    rw [sqIter]
    have hcomp : ∀ y, y < 2 ^ 32 → applyL (composeL m m) y = (f ∘ f) y := by
      intro y hy
      rw [applyL_composeL m m hlen y, hagree y hy, hagree (f y) (hpres y hy)]
      rfl
    rw [ih (composeL m m) (f ∘ f) (by rw [composeL_length, hlen]) hcomp
      (fun y hy => hpres (f y) (hpres y hy)) x hx]
    rw [show (2 : Nat) ^ (n + 1) = 2 * 2 ^ n by ring, Function.iterate_mul]
    rw [show f^[2] = f ∘ f by funext y; simp [Function.iterate_succ]]

/-! ## Linearity and bounds of the CRC zero-byte step -/

theorem xor_mod_two (a b : Nat) : (a ^^^ b) % 2 = a % 2 ^^^ b % 2 := by
  have h := Nat.testBit_xor a b 0
  simp only [Nat.testBit_to_div_mod, Nat.pow_zero, Nat.div_one] at h
  rcases Nat.mod_two_eq_zero_or_one a with ha | ha <;>
    rcases Nat.mod_two_eq_zero_or_one b with hb | hb <;>
      rw [ha, hb] at h ⊢ <;> simp_all

theorem xor_div_two (a b : Nat) : (a ^^^ b) / 2 = a / 2 ^^^ b / 2 := by
  apply Nat.eq_of_testBit_eq
  intro i
  rw [Nat.testBit_div_two, Nat.testBit_xor, Nat.testBit_xor,
    Nat.testBit_div_two, Nat.testBit_div_two]

theorem crcBit_xor (a b : Nat) : crcBit (a ^^^ b) = crcBit a ^^^ crcBit b := by
  rw [crcBit, crcBit, crcBit, xor_mod_two]
  rcases Nat.mod_two_eq_zero_or_one a with ha | ha <;>
    rcases Nat.mod_two_eq_zero_or_one b with hb | hb <;>
      rw [ha, hb] <;> rw [xor_div_two]
  · rw [if_neg (by decide), if_neg (by decide), if_neg (by decide)]
  · rw [if_pos (by decide), if_neg (by decide), if_pos (by decide),
      Nat.xor_assoc]
  · rw [if_pos (by decide), if_pos (by decide), if_neg (by decide),
      Nat.xor_comm (a / 2 ^^^ CRC_POLY), ← Nat.xor_assoc, Nat.xor_comm (b / 2),
      Nat.xor_assoc]
  · rw [if_neg (by decide), if_pos (by decide), if_pos (by decide),
      Nat.xor_assoc, Nat.xor_comm CRC_POLY, Nat.xor_assoc, Nat.xor_self,
      Nat.xor_zero]

theorem crc8_xor : ∀ (n a b : Nat), crc8 n (a ^^^ b) = crc8 n a ^^^ crc8 n b := by
  intro n
  induction n with
  | zero => intro a b; rfl
  | succ k ih => intro a b; rw [crc8, crcBit_xor, ih, crc8, crc8]

theorem crcZ_xor (a b : Nat) : crcZ (a ^^^ b) = crcZ a ^^^ crcZ b := by
  rw [crcZ, crcZ, crcZ, crcByte, crcByte, crcByte, Nat.xor_zero, Nat.xor_zero,
    Nat.xor_zero, crc8_xor]

theorem crcBit_lt (c : Nat) (h : c < 2 ^ 32) : crcBit c < 2 ^ 32 := by
  rw [crcBit]
  by_cases hp : c % 2 = 1
  · rw [if_pos hp]
    exact Nat.xor_lt_two_pow (by omega) (by norm_num [CRC_POLY])
  · rw [if_neg hp]
    omega

theorem crc8_lt : ∀ (n c : Nat), c < 2 ^ 32 → crc8 n c < 2 ^ 32 := by
  intro n
  induction n with
  | zero => intro c h; exact h
  | succ k ih => intro c h; rw [crc8]; exact ih _ (crcBit_lt c h)

theorem crcZ_lt (c : Nat) (h : c < 2 ^ 32) : crcZ c < 2 ^ 32 := by
  rw [crcZ, crcByte, Nat.xor_zero]
  exact crc8_lt 8 c h

theorem crcZ_iter_lt : ∀ (n x : Nat), x < 2 ^ 32 → crcZ^[n] x < 2 ^ 32 := by
  intro n
  induction n with
  | zero => intro x h; exact h
  | succ k ih =>
    intro x h
    rw [Function.iterate_succ_apply]
    exact ih _ (crcZ_lt x h)

/-! ## Folding the CRC over structured byte lists -/

theorem crcFold_cons (c b : Nat) (bs : List Nat) :
    crcFold c (b :: bs) = crcFold (crcByte c b) bs := rfl

theorem crcFold_append (l1 l2 : List Nat) :
    ∀ c, crcFold c (l1 ++ l2) = crcFold (crcFold c l1) l2 := by
  induction l1 with
  | nil => intro c; rfl
  | cons b l ih =>
    intro c
    rw [List.cons_append, crcFold_cons, crcFold_cons, ih]

theorem crcFold_replicate_zero :
    ∀ (n c : Nat), crcFold c (List.replicate n 0) = crcZ^[n] c := by
  intro n
  induction n with
  | zero => intro c; rfl
  | succ k ih =>
    intro c
    rw [List.replicate_succ, crcFold_cons, ih, Function.iterate_succ_apply]
    rfl

/-! ## Evaluating the CRC state after `0x5C000` zero bytes -/

theorem applyL_crcZmat14 (x : Nat) (hx : x < 2 ^ 32) :
    applyL crcZmat14 x = crcZ^[16384] x := by
  rw [crcZmat14]
  have h := sqIter_spec 14 (repOf crcZ) crcZ (repOf_length crcZ)
    (fun y hy => applyL_repOf crcZ crcZ_xor y hy)
    (fun y hy => crcZ_lt y hy) x hx
  rw [h, show (2 : Nat) ^ 14 = 16384 by norm_num]

theorem applyLIter_crcZmat14 :
    ∀ (n x : Nat), x < 2 ^ 32 → applyLIter crcZmat14 n x = crcZ^[16384 * n] x := by
  intro n
  induction n with
  | zero => intro x _; rfl
  | succ k ih =>
    intro x hx
    rw [applyLIter, applyL_crcZmat14 x hx,
      ih (crcZ^[16384] x) (crcZ_iter_lt 16384 x hx),
      ← Function.iterate_add_apply,
      show 16384 * k + 16384 = 16384 * (k + 1) by ring]

set_option maxRecDepth 100000 in
set_option maxHeartbeats 4000000 in
/-- The CRC-32 running state after `0x5C000` zero bytes from the initial
state (computed by 14 matrix squarings and 23 applications). -/
theorem crc_state_zeros : crcFold 0xffffffff (List.replicate 0x5c000 0) =
    0x3d866ce9 := by
  rw [crcFold_replicate_zero,
    show (0x5c000 : Nat) = 16384 * 23 by norm_num,
    ← applyLIter_crcZmat14 23 0xffffffff (by norm_num)]
  decide

/-! ## C3 — the kitchen CRC postconditions

The claim asserts both CRC postconditions for *every* image on which the
kitchen patch operation succeeds.  The settings-CRC postcondition does
hold unconditionally, but the app-CRC postcondition fails when the decoded
app region `[0x23000, 0x23000 + image_size)` reaches into the settings
page: the app CRC is computed *before* the two CRC words are stored, so
storing them changes the very bytes the checksum was taken over.  The
counterexample (`imgC3`) decodes `image_size = 0x5C004`, whose app region
covers the settings-CRC word at `0x7F000`. -/

/-- The app region of the counterexample input is `0x5C004` zero bytes. -/
theorem imgC3_app_sub :
    imgC3.sub APP_START (APP_START + 0x5c004) = List.replicate 0x5c004 0 := by
  have hb : ∀ j, j < 0x5c004 → imgC3.get8 (0x23000 + j) = 0 := by
    intro j hj
    show (if 0x23000 + j = 0x7f018 then 0x04 else
      if 0x23000 + j = 0x7f019 then 0xc0 else
      if 0x23000 + j = 0x7f01a then 0x05 else 0) % 256 = 0
    rw [if_neg (by omega), if_neg (by omega), if_neg (by omega)]
  show (List.range 0x5c004).map (fun k => imgC3.get8 (0x23000 + k)) = _
  apply List.ext_getElem?
  intro j
  by_cases hj : j < 0x5c004
  · rw [List.getElem?_map, List.getElem?_range hj,
      List.getElem?_replicate_of_lt hj, Option.map_some', hb j hj]
  · rw [List.getElem?_map]
    rw [List.getElem?_eq_none (by rw [List.length_range]; omega),
      List.getElem?_eq_none (by rw [List.length_replicate]; omega)]
    rfl

/-- The app CRC the kitchen computes on the counterexample input. -/
theorem imgC3_appCrc :
    crc32 (imgC3.sub APP_START (APP_START + 0x5c004)) = 0x20f4b0d5 := by
  rw [imgC3_app_sub, crc32,
    show (0x5c004 : Nat) = 0x5c000 + 4 by norm_num, List.replicate_add,
    crcFold_append, crc_state_zeros]
  decide

set_option maxRecDepth 100000 in
set_option maxHeartbeats 4000000 in
/-- The settings CRC the kitchen computes after storing the app CRC. -/
theorem img2C3_settingsCrc :
    crc32 (img2C3.sub (BL_SETTINGS_ADDR + 4) (BL_SETTINGS_ADDR + 92)) =
      0x355924f3 := by
  have hl : img2C3.sub (BL_SETTINGS_ADDR + 4) (BL_SETTINGS_ADDR + 92) =
      List.replicate 20 0 ++
        ([0x04, 0xc0, 0x05, 0x00, 0xd5, 0xb0, 0xf4, 0x20] ++
          (List.replicate 30 0 ++ List.replicate 30 0)) := by
    decide
  have h1 : crcFold 0xffffffff (List.replicate 20 0) = 0xf02a6472 := by decide
  have h2 : crcFold 0xf02a6472
      [0x04, 0xc0, 0x05, 0x00, 0xd5, 0xb0, 0xf4, 0x20] = 0xf87f3b1e := by
    decide
  have h3 : crcFold 0xf87f3b1e (List.replicate 30 0) = 0xcf97a933 := by decide
  have h4 : crcFold 0xcf97a933 (List.replicate 30 0) = 0xcaa6db0c := by decide
  rw [hl, crc32, crcFold_append, crcFold_append, crcFold_append,
    h1, h2, h3, h4]
  decide

set_option maxRecDepth 100000 in
/-- The kitchen pipeline on the counterexample input emits `outC3`. -/
theorem kitchenPatch_imgC3 : kitchenPatch imgC3 pfC3 = some outC3 := by
  have h1 : kitchenPatch imgC3 pfC3 = kitchenFinish imgC3 0x5c004 := rfl
  have hW1 : imgC3.writeU32LE 0x20f4b0d5 (BL_SETTINGS_ADDR + 28) =
      some img2C3 := rfl
  have hW2 : img2C3.writeU32LE 0x355924f3 BL_SETTINGS_ADDR = some outC3 := rfl
  rw [h1, kitchenFinish, imgC3_appCrc, hW1]
  show img2C3.writeU32LE
    (crc32 (img2C3.sub (BL_SETTINGS_ADDR + 4) (BL_SETTINGS_ADDR + 92)))
    BL_SETTINGS_ADDR = some outC3
  rw [img2C3_settingsCrc]
  exact hW2

/-- The app region of the emitted image: the zeros, except the last four
bytes, which now carry the little-endian settings CRC. -/
theorem outC3_app_sub :
    outC3.sub APP_START (APP_START + 0x5c004) =
      List.replicate 0x5c000 0 ++ [0xf3, 0x24, 0x59, 0x35] := by
  show (List.range 0x5c004).map (fun k => outC3.get8 (0x23000 + k)) = _
  apply List.ext_getElem?
  intro j
  by_cases hj : j < 0x5c000
  · rw [List.getElem?_map, List.getElem?_range (by omega),
      List.getElem?_append_left (by rw [List.length_replicate]; omega),
      Option.map_some', List.getElem?_replicate_of_lt hj]
    show some ((if 0x23000 + j = 0x7f003 then 0x35 else
      if 0x23000 + j = 0x7f002 then 0x59 else
      if 0x23000 + j = 0x7f001 then 0x24 else
      if 0x23000 + j = 0x7f000 then 0xf3 else
      if 0x23000 + j = 0x7f01f then 0x20 else
      if 0x23000 + j = 0x7f01e then 0xf4 else
      if 0x23000 + j = 0x7f01d then 0xb0 else
      if 0x23000 + j = 0x7f01c then 0xd5 else
      if 0x23000 + j = 0x7f018 then 0x04 else
      if 0x23000 + j = 0x7f019 then 0xc0 else
      if 0x23000 + j = 0x7f01a then 0x05 else 0) % 256) = some 0
    iterate 11 rw [if_neg (by omega)]
  · by_cases hj2 : j < 0x5c004
    · rw [List.getElem?_map, List.getElem?_range hj2,
        List.getElem?_append_right (by rw [List.length_replicate]; omega),
        Option.map_some']
      rw [List.length_replicate]
      rcases (by omega : j = 0x5c000 ∨ j = 0x5c001 ∨ j = 0x5c002 ∨ j = 0x5c003)
        with h | h | h | h <;> rw [h] <;> rfl
    · rw [List.getElem?_map]
      rw [List.getElem?_eq_none (by rw [List.length_range]; omega),
        List.getElem?_eq_none (by
          rw [List.length_append, List.length_replicate]
          show 0x5c000 + 4 ≤ j
          omega)]
      rfl

/-- The CRC of the emitted app region differs from the stored app CRC. -/
theorem outC3_appCrc :
    crc32 (outC3.sub APP_START (APP_START + 0x5c004)) = 0xb6a9c59e := by
  rw [outC3_app_sub, crc32, crcFold_append, crc_state_zeros]
  decide

/-- C3 counterexample: on `imgC3` (decoded `image_size = 0x5C004`, so the
app region overlaps the settings-CRC word) the kitchen succeeds, yet the
word stored at `0x7F01C` (`0x20F4B0D5`) is not the CRC-32 of the emitted
image's app region (`0xB6A9C59E`) — the app-CRC postcondition of the claim
fails. -/
theorem claim_C3_counterexample :
    (readKitchenSettings imgC3).map (fun b => b.bank0ImageSize) =
      some 0x5c004 ∧
    ¬ ∀ out : Img, kitchenPatch imgC3 pfC3 = some out →
        out.readU32LE (BL_SETTINGS_ADDR + 28) =
          some (crc32 (out.sub APP_START (APP_START + 0x5c004))) := by
  constructor
  · decide
  · intro hall
    have h := hall outC3 kitchenPatch_imgC3
    rw [outC3_appCrc] at h
    have h2 : outC3.readU32LE (BL_SETTINGS_ADDR + 28) = some 0x20f4b0d5 := by
      decide
    rw [h2] at h
    exact absurd (Option.some.inj h) (by decide)

/-! ## C3 (amended) — the store/read lemmas for the 32-bit LE slots -/

/-- Unpack a successful `writeUInt32LE`. -/
theorem writeU32LE_some {img out : Img} {v off : Nat}
    (h : img.writeU32LE v off = some out) :
    v ≤ 0xffffffff ∧ off + 4 ≤ img.size ∧
      out = (((img.setByte off (v % 256)).setByte (off + 1)
        (v / 256 % 256)).setByte (off + 2) (v / 65536 % 256)).setByte
          (off + 3) (v / 16777216 % 256) := by
  unfold Img.writeU32LE at h
  by_cases hc : v ≤ 0xffffffff ∧ off + 4 ≤ img.size
  · rw [if_pos hc] at h
    exact ⟨hc.1, hc.2, (Option.some.inj h).symm⟩
  · rw [if_neg hc] at h
    exact Option.noConfusion h

/-- The store preserves the image size. -/
theorem writeU32LE_size {img out : Img} {v off : Nat}
    (h : img.writeU32LE v off = some out) : out.size = img.size := by
  obtain ⟨-, -, rfl⟩ := writeU32LE_some h
  rfl

/-- Bytes outside `[off, off + 4)` are unchanged by the store. -/
theorem writeU32LE_get8_outside {img out : Img} {v off : Nat}
    (h : img.writeU32LE v off = some out) (j : Nat)
    (hj : j < off ∨ off + 4 ≤ j) : out.get8 j = img.get8 j := by
  obtain ⟨-, -, rfl⟩ := writeU32LE_some h
  show (if j = off + 3 then v / 16777216 % 256 else
    if j = off + 2 then v / 65536 % 256 else
    if j = off + 1 then v / 256 % 256 else
    if j = off then v % 256 else img.byteAt j) % 256 = img.byteAt j % 256
  rw [if_neg (by omega), if_neg (by omega), if_neg (by omega),
    if_neg (by omega)]

/-- A 32-bit little-endian read determined by its four bytes. -/
theorem readU32LE_of_get8 {img : Img} {off v : Nat}
    (hoff : off + 4 ≤ img.size) (hv : v < 2 ^ 32)
    (h0 : img.get8 off = v % 256) (h1 : img.get8 (off + 1) = v / 256 % 256)
    (h2 : img.get8 (off + 2) = v / 65536 % 256)
    (h3 : img.get8 (off + 3) = v / 16777216 % 256) :
    img.readU32LE off = some v := by
  unfold Img.readU32LE
  rw [if_pos hoff, h0, h1, h2, h3]
  exact congrArg some (by omega)

/-- Reading back the word a successful store wrote. -/
theorem writeU32LE_readback {img out : Img} {v off : Nat}
    (h : img.writeU32LE v off = some out) : out.readU32LE off = some v := by
  obtain ⟨hv, hoff, rfl⟩ := writeU32LE_some h
  refine readU32LE_of_get8 hoff (by omega) ?_ ?_ ?_ ?_
  · show (if off = off + 3 then v / 16777216 % 256 else
      if off = off + 2 then v / 65536 % 256 else
      if off = off + 1 then v / 256 % 256 else
      if off = off then v % 256 else img.byteAt off) % 256 = v % 256
    rw [if_neg (by omega), if_neg (by omega), if_neg (by omega), if_pos rfl]
    omega
  · show (if off + 1 = off + 3 then v / 16777216 % 256 else
      if off + 1 = off + 2 then v / 65536 % 256 else
      if off + 1 = off + 1 then v / 256 % 256 else
      if off + 1 = off then v % 256 else img.byteAt (off + 1)) % 256 =
        v / 256 % 256
    rw [if_neg (by omega), if_neg (by omega), if_pos rfl]
    omega
  · show (if off + 2 = off + 3 then v / 16777216 % 256 else
      if off + 2 = off + 2 then v / 65536 % 256 else
      if off + 2 = off + 1 then v / 256 % 256 else
      if off + 2 = off then v % 256 else img.byteAt (off + 2)) % 256 =
        v / 65536 % 256
    rw [if_neg (by omega), if_pos rfl]
    omega
  · show (if off + 3 = off + 3 then v / 16777216 % 256 else
      if off + 3 = off + 2 then v / 65536 % 256 else
      if off + 3 = off + 1 then v / 256 % 256 else
      if off + 3 = off then v % 256 else img.byteAt (off + 3)) % 256 =
        v / 16777216 % 256
    rw [if_pos rfl]
    omega

/-- Two images agreeing on four bytes (and in size) read the same word. -/
theorem readU32LE_congr {a b : Img} (off : Nat) (hsz : a.size = b.size)
    (h0 : a.get8 off = b.get8 off) (h1 : a.get8 (off + 1) = b.get8 (off + 1))
    (h2 : a.get8 (off + 2) = b.get8 (off + 2))
    (h3 : a.get8 (off + 3) = b.get8 (off + 3)) :
    a.readU32LE off = b.readU32LE off := by
  unfold Img.readU32LE
  rw [hsz, h0, h1, h2, h3]

/-- Two images agreeing (in size and) on the clamped range have the same
`subarray` contents. -/
theorem sub_congr {a b : Img} (s e : Nat) (hsz : a.size = b.size)
    (hb : ∀ j, min s a.size ≤ j → j < min e a.size → a.get8 j = b.get8 j) :
    a.sub s e = b.sub s e := by
  unfold Img.sub
  rw [← hsz]
  apply List.map_congr_left
  intro k hk
  rw [List.mem_range] at hk
  exact hb (min s a.size + k) (by omega) (by omega)

/-! ### Size preservation along the kitchen pipeline -/

theorem writeU8_size {img out : Img} {v off : Nat}
    (h : img.writeU8 v off = some out) : out.size = img.size := by
  unfold Img.writeU8 at h
  by_cases hc : v ≤ 0xff ∧ off + 1 ≤ img.size
  · rw [if_pos hc] at h
    rw [← Option.some.inj h]
    rfl
  · rw [if_neg hc] at h
    exact Option.noConfusion h

theorem writeU16BE_size {img out : Img} {v off : Nat}
    (h : img.writeU16BE v off = some out) : out.size = img.size := by
  unfold Img.writeU16BE at h
  by_cases hc : v ≤ 0xffff ∧ off + 2 ≤ img.size
  · rw [if_pos hc] at h
    rw [← Option.some.inj h]
    rfl
  · rw [if_neg hc] at h
    exact Option.noConfusion h

theorem writeU32BE_size {img out : Img} {v off : Nat}
    (h : img.writeU32BE v off = some out) : out.size = img.size := by
  unfold Img.writeU32BE at h
  by_cases hc : v ≤ 0xffffffff ∧ off + 4 ≤ img.size
  · rw [if_pos hc] at h
    rw [← Option.some.inj h]
    rfl
  · rw [if_neg hc] at h
    exact Option.noConfusion h

theorem applyPatch_size {img out : Img} {p : Patch} {fa : Option Nat}
    (h : applyPatch img p fa = some out) : out.size = img.size := by
  cases p with
  | pstring address original data =>
    rw [← Option.some.inj h]
    rfl
  | puint8 address original data => exact writeU8_size h
  | puint16 address original data => exact writeU16BE_size h
  | puint32 address original data => exact writeU32BE_size h
  | pbytes address original data =>
    rw [← Option.some.inj h]
    rfl
  | pfindReplace find replace =>
    cases fa with
    | none => exact Option.noConfusion h
    | some a =>
      rw [← Option.some.inj h]
      rfl

theorem applyAll_size (l : List (Patch × Option Nat)) :
    ∀ (img out : Img), applyAll img l = some out → out.size = img.size := by
  induction l with
  | nil =>
    intro img out h
    rw [← Option.some.inj h]
  | cons pfa ps ih =>
    intro img out h
    obtain ⟨p, fa⟩ := pfa
    simp only [applyAll] at h
    cases hp : applyPatch img p fa with
    | none => rw [hp] at h; exact Option.noConfusion h
    | some img2 =>
      rw [hp] at h
      have h2 : applyAll img2 ps = some out := h
      rw [ih img2 out h2, applyPatch_size hp]

theorem kitchenWorking_size {img w : Img} {pf : PatchFile}
    (h : kitchenWorking img pf = some w) : w.size = img.size := by
  unfold kitchenWorking at h
  cases hbl : readKitchenSettings img with
  | none => rw [hbl] at h; exact Option.noConfusion h
  | some bl =>
    rw [hbl] at h
    have h2 : some (if pf.cleanRegions ≠ [] then
        cleanFirmware img pf.cleanRegions (APP_START + bl.bank0ImageSize)
      else img) = some w := h
    rw [← Option.some.inj h2]
    by_cases hc : pf.cleanRegions ≠ []
    · rw [if_pos hc]
      rfl
    · rw [if_neg hc]

/-- C3 (amended): whenever the kitchen pipeline succeeds, the emitted
image's settings-CRC postcondition holds unconditionally — the
little-endian word at `0x7F000` is the CRC-32 of the output bytes
`[0x7F004, 0x7F05C)` — and the app-CRC postcondition — the little-endian
word at `0x7F01C` equals the CRC-32 of the output bytes
`[0x23000, 0x23000 + image_size)` — holds provided the (clamped) app
region does not reach the settings page at `0x7F000`.  The source
computes the app CRC *before* storing either CRC word, so an overlapping
app region (e.g. `image_size = 0x5C004` in a 512 KiB image,
`claim_C3_counterexample`) is modified after being summed. -/
theorem claim_C3 (img : Img) (pf : PatchFile) (bl : KitchenSettings)
    (out : Img) (hbl : readKitchenSettings img = some bl)
    (hout : kitchenPatch img pf = some out) :
    out.readU32LE BL_SETTINGS_ADDR =
      some (crc32 (out.sub (BL_SETTINGS_ADDR + 4) (BL_SETTINGS_ADDR + 92))) ∧
    (min (APP_START + bl.bank0ImageSize) img.size ≤ BL_SETTINGS_ADDR →
      out.readU32LE (BL_SETTINGS_ADDR + 28) =
        some (crc32 (out.sub APP_START (APP_START + bl.bank0ImageSize)))) := by
  simp only [kitchenPatch, hbl] at hout
  cases hw : kitchenWorking img pf with
  | none => rw [hw] at hout; exact Option.noConfusion hout
  | some w =>
    simp only [hw] at hout
    cases hv : verifyAll w pf.patches with
    | none => rw [hv] at hout; exact Option.noConfusion hout
    | some fas =>
      simp only [hv] at hout
      cases ha : applyAll w (pf.patches.zip fas) with
      | none => rw [ha] at hout; exact Option.noConfusion hout
      | some patched =>
        simp only [ha, kitchenFinish] at hout
        cases h1 : patched.writeU32LE
            (crc32 (patched.sub APP_START (APP_START + bl.bank0ImageSize)))
            (BL_SETTINGS_ADDR + 28) with
        | none => rw [h1] at hout; exact Option.noConfusion hout
        | some img2 =>
          simp only [h1] at hout
          have hSsize : out.size = img2.size := writeU32LE_size hout
          have h2size : img2.size = patched.size := writeU32LE_size h1
          have hpsize : patched.size = w.size := applyAll_size _ w patched ha
          have hwsize : w.size = img.size := kitchenWorking_size hw
          have hBL4 : BL_SETTINGS_ADDR + 4 ≤ img2.size :=
            (writeU32LE_some hout).2.1
          constructor
          · have hread := writeU32LE_readback hout
            have hsub : out.sub (BL_SETTINGS_ADDR + 4)
                (BL_SETTINGS_ADDR + 92) =
                img2.sub (BL_SETTINGS_ADDR + 4) (BL_SETTINGS_ADDR + 92) := by
              apply sub_congr _ _ hSsize
              intro j hj1 hj2
              exact writeU32LE_get8_outside hout j (Or.inr (by omega))
            rw [hread, hsub]
          · intro hnov
            have hAread := writeU32LE_readback h1
            have houtread : out.readU32LE (BL_SETTINGS_ADDR + 28) =
                img2.readU32LE (BL_SETTINGS_ADDR + 28) := by
              apply readU32LE_congr _ hSsize <;>
                exact writeU32LE_get8_outside hout _ (Or.inr (by omega))
            have hsubA : out.sub APP_START (APP_START + bl.bank0ImageSize) =
                patched.sub APP_START (APP_START + bl.bank0ImageSize) := by
              apply sub_congr _ _ (show out.size = patched.size by
                rw [hSsize, h2size])
              intro j hj1 hj2
              have hos : out.size = img.size := by
                rw [hSsize, h2size, hpsize, hwsize]
              have hj3 : j < BL_SETTINGS_ADDR := by omega
              have e1 : out.get8 j = img2.get8 j :=
                writeU32LE_get8_outside hout j (Or.inl hj3)
              have e2 : img2.get8 j = patched.get8 j :=
                writeU32LE_get8_outside h1 j (Or.inl (by omega))
              rw [e1, e2]
            rw [houtread, hAread, hsubA]

set_option maxRecDepth 100000 in
set_option maxHeartbeats 4000000 in
/-- C3 witness: the amended theorem at a fully concrete instance — the
minimum-size all-zero image, whose decoded `image_size` (zero) keeps the
app region clear of the settings page, so both postconditions evaluate. -/
theorem claim_C3_witness :
    outW3.readU32LE BL_SETTINGS_ADDR =
      some (crc32 (outW3.sub (BL_SETTINGS_ADDR + 4)
        (BL_SETTINGS_ADDR + 92))) ∧
    (min (APP_START + 0) imgW3.size ≤ BL_SETTINGS_ADDR →
      outW3.readU32LE (BL_SETTINGS_ADDR + 28) =
        some (crc32 (outW3.sub APP_START (APP_START + 0)))) :=
  claim_C3 imgW3 pfC3 ⟨0, 0, 0, 0, 0, 0, 0, 0, 0⟩ outW3 (by decide) rfl

end Sdcfw
